import Mathlib

/-! DebugLog: variadic formatting and dual-sink routing.

A shallow embedding of `arx::debug::Manager` (`src/DebugLog/Manager.h`), of
`generate_color_tag` (`src/DebugLog/Colors.h`) and of the `PRINT` family of macros
(`src/DebugLog.h`).

* The member functions become functions on a `Manager` record (the data members of the
  class).  A call returns the new record together with the list of calls it made on its
  streams, in order.
* A stream pointer `S* s` is an `Option Stream`; `none` is `nullptr`.  A call made through
  `nullptr` has no defined behaviour in C++: the run stops there with `none`.
* A variadic argument pack is a `List Arg`; the template recursion over the pack is
  recursion over the list, `sizeof...(tail) != 0` is `tail.length ≠ 0`.
* The build switches (`ARDUINO`, `DEBUGLOG_USE_COLORS`) select code at compile time.  The
  `ARDUINO` build is embedded in the namespace `DebugLog`, the other build (output on
  `std::cout`) in `DebugLog.Hosted`; `DEBUGLOG_USE_COLORS` is the flag `colors` of `log`.
-/

namespace DebugLog

/-! ## Types (`Types.h` is not part of the sources at hand) -/

/-- Modelled from the spec: the enumeration `LogLevel` of `Types.h`, "an ordered
enumeration {NONE, ERROR, WARN, INFO, DEBUG, TRACE}" with `NONE` the smallest value. -/
inductive LogLevel where
  | LVL_NONE
  | LVL_ERROR
  | LVL_WARN
  | LVL_INFO
  | LVL_DEBUG
  | LVL_TRACE
  deriving DecidableEq, Repr

/-- Modelled from the spec: the numeric value of a level, in the order of the
enumeration. -/
def LogLevel.toNat : LogLevel → Nat
  | .LVL_NONE => 0
  | .LVL_ERROR => 1
  | .LVL_WARN => 2
  | .LVL_INFO => 3
  | .LVL_DEBUG => 4
  | .LVL_TRACE => 5

/-- The cast `static_cast<uint8_t>(level)`. -/
def LogLevel.u8 (l : LogLevel) : Nat := l.toNat % 2 ^ 8

/-- Modelled from the spec: the enumeration `LogBase` of `Types.h`, "current numeric base
(DEC/HEX/OCT, default DEC)". -/
inductive LogBase where
  | DEC
  | HEX
  | OCT
  deriving DecidableEq, Repr

/-- Modelled from the spec: the value of `static_cast<int>(log_base)` handed to the
stream, the radix of "decimal, hexadecimal, or octal". -/
def LogBase.toNat : LogBase → Nat
  | .DEC => 10
  | .HEX => 16
  | .OCT => 8

/-- Modelled from the spec: `LogPrecision` of `Types.h`, a "fixed number of digits after
the decimal point"; `static_cast<int>(log_precision)` is `digits`. -/
structure LogPrecision where
  digits : Nat
  deriving DecidableEq, Repr

/-- Modelled from the spec: `LogPrecision::TWO`, the "default 2 decimal digits". -/
def LogPrecision.TWO : LogPrecision := ⟨2⟩

/-- A `float` or `double` argument, identified by its bit pattern.  Its digits are
produced by the stream, not by the logger. -/
structure FloatVal where
  bits : Nat
  deriving DecidableEq, Repr

/-- A stream object (the target of a `Stream*`). -/
structure Stream where
  id : Nat
  deriving DecidableEq, Repr

/-- The console device `Serial`, the initial target of `primary_stream`. -/
def Serial : Stream := ⟨0⟩

/-- One argument of a `print`/`log` call, by the overload of `print_one` that the
compiler selects for it (`ARDUINO` build).

* `text s`: a value of any type without an overload of its own (string literal, `String`,
  `char`, ...), taken by the generic `print_one(const Head&, S*)`; `s` is what
  `Stream::print(head)` writes for it.
* `int n`: one of the eight integer overloads.
* `flt x`: `float` or `double`.
* `base b`, `prec p`: the selectors `LogBase` and `LogPrecision`.
* `arr xs`: `Array<T>`, `vec_t<T>` or `deq_t<T>`, its elements in index order.
* `map kvs`: `map_t<K, V>`, its pairs in iteration order.

A C++ container has one element type; the lists here are not restricted that way. -/
inductive Arg where
  | text (s : String)
  | int (n : Int)
  | flt (x : FloatVal)
  | base (b : LogBase)
  | prec (p : LogPrecision)
  | arr (xs : List Arg)
  | map (kvs : List (Arg × Arg))

/-- A call made on a stream object. -/
inductive Call where
  /-- The call `s->print(head)`. -/
  | print (text : String)
  /-- The call `s->print(head, base)` for an integer `head`. -/
  | print_base (n : Int) (base : Nat)
  /-- The call `s->print(head, digits)` for a floating-point `head`. -/
  | print_prec (x : FloatVal) (digits : Nat)
  /-- The call `s->println(str)`. -/
  | println (text : String)
  /-- The call `s->flush()`. -/
  | flush
  deriving DecidableEq, Repr

/-- What a call wrote: the calls made on streams, oldest first, each with the stream it
was made on. -/
abbrev Out := List (Stream × Call)

/-- The data members of `class Manager` (`ARDUINO` build). -/
structure Manager where
  log_lvl : LogLevel
  log_base : LogBase
  delim : String
  b_base_reset : Bool
  primary_stream : Stream
  file_stream : Option Stream
  file_lvl : LogLevel
  b_auto_save : Bool
  log_precision : LogPrecision
  deriving DecidableEq, Repr

/-- The member initialisers of `Manager`; the two default levels are macros of `Types.h`
and are taken as parameters. -/
def Manager.init (DEBUGLOG_DEFAULT_LOG_LEVEL DEBUGLOG_DEFAULT_FILE_LEVEL : LogLevel) : Manager :=
  { log_lvl := DEBUGLOG_DEFAULT_LOG_LEVEL
    log_base := .DEC
    delim := " "
    b_base_reset := true
    primary_stream := Serial
    file_stream := none
    file_lvl := DEBUGLOG_DEFAULT_FILE_LEVEL
    b_auto_save := false
    log_precision := .TWO }

/-- The result of a member function: the manager afterwards and the calls made, or `none`
when a call went through a null stream pointer. -/
abbrev Step := Option (Manager × Out)

/-! ## Setters -/

/-- The setter `void log_level(const LogLevel l)`. -/
def log_level (l : LogLevel) (m : Manager) : Manager := { m with log_lvl := l }

/-- The setter `void delimiter(const string_t& del)`. -/
def delimiter (del : String) (m : Manager) : Manager := { m with delim := del }

/-- The setter `void base_reset(const bool b)`. -/
def base_reset (b : Bool) (m : Manager) : Manager := { m with b_base_reset := b }

/-- The setter `void attach_primary_stream(Stream& s)`. -/
def attach_primary_stream (s : Stream) (m : Manager) : Manager := { m with primary_stream := s }

/-- The setter `void attach_file_stream(Stream& s, const bool auto_save)`. -/
def attach_file_stream (s : Stream) (auto_save : Bool) (m : Manager) : Manager :=
  { m with file_stream := some s, b_auto_save := auto_save }

/-- The setter `void file_level(const LogLevel l)`. -/
def file_level (l : LogLevel) (m : Manager) : Manager := { m with file_lvl := l }

/-! ## Headers and color tags -/

/-- The function `Manager::generate_header` with the default header macros. -/
def generate_header (lvl : LogLevel) : String :=
  match lvl with
  | .LVL_ERROR => "[ERROR] "
  | .LVL_WARN => "[WARN] "
  | .LVL_INFO => "[INFO] "
  | .LVL_DEBUG => "[DEBUG] "
  | .LVL_TRACE => "[TRACE] "
  | .LVL_NONE => "[NONE] "

/-- The function `generate_color_tag` of `Colors.h` with the default tag macros (`\033` is the escape
character, code 27). -/
def generate_color_tag (lvl : LogLevel) : String :=
  match lvl with
  | .LVL_ERROR => "\x1b[31m"
  | .LVL_WARN => "\x1b[33m"
  | .LVL_INFO => "\x1b[34m"
  | .LVL_DEBUG => "\x1b[35m"
  | .LVL_TRACE => "\x1b[37m"
  | .LVL_NONE => "\x1b[37m"

/-- The macro `DEBUGLOG_CLEAR_COLOR_TAG`. -/
def DEBUGLOG_CLEAR_COLOR_TAG : String := "\x1b[0m"

/-! ## `print_one` and the container helpers (`ARDUINO` build) -/

/-- A member call `s->c` through the pointer `s`. -/
def stream_call (s : Option Stream) (c : Call) (m : Manager) : Step :=
  match s with
  | none => none
  | some h => some (m, [(h, c)])

/-- The generic overload `print_one(const Head& head, S* s) { s->print(head); }`. -/
def print_one_generic (head : String) (s : Option Stream) (m : Manager) : Step :=
  stream_call s (.print head) m

/-- The body of `print_array(head, s)` around its `for` loop, which is passed in as
`loop`. -/
def print_array_body (loop : Manager → Step) (s : Option Stream) (m : Manager) : Step := do
  let b_base_reset_restore := m.b_base_reset
  let m0 := { m with b_base_reset := false }
  let r1 ← print_one_generic "[" s m0
  let r2 ← loop r1.1
  let r3 ← print_one_generic "]" s r2.1
  let m4 := { r3.1 with b_base_reset := b_base_reset_restore }
  let m5 := if m4.b_base_reset then { m4 with log_base := .DEC } else m4
  pure (m5, r1.2 ++ r2.2 ++ r3.2)

/-- The body of `print_map(head, s)` around its `for` loop, which is passed in as
`loop`.  Unlike `print_array` it does not clear `b_base_reset`. -/
def print_map_body (loop : Manager → Step) (s : Option Stream) (m : Manager) : Step := do
  let b_base_reset_restore := m.b_base_reset
  let r1 ← print_one_generic "\x7b" s m
  let r2 ← loop r1.1
  let r3 ← print_one_generic "\x7d" s r2.1
  let m4 := { r3.1 with b_base_reset := b_base_reset_restore }
  let m5 := if m4.b_base_reset then { m4 with log_base := .DEC } else m4
  pure (m5, r1.2 ++ r2.2 ++ r3.2)

mutual
/-- The overloads of `print_one(head, s)`. -/
def print_one (head : Arg) (s : Option Stream) (m : Manager) : Step :=
  match head with
  | .text t => print_one_generic t s m
  | .int n => stream_call s (.print_base n m.log_base.toNat) m
  | .base b => some ({ m with log_base := b }, [])
  | .flt x => stream_call s (.print_prec x m.log_precision.digits) m
  | .prec p => some ({ m with log_precision := p }, [])
  | .arr xs => print_array_body (print_array_loop xs s) s m
  | .map kvs => print_map_body (print_map_loop kvs s) s m
/-- The loop `for (size_t i = 0; i < head.size(); ++i)` of `print_array`, on the elements
from index `i` on; `i + 1 != head.size()` says that elements remain after `head[i]`. -/
def print_array_loop (elems : List Arg) (s : Option Stream) (m : Manager) : Step :=
  match elems with
  | [] => some (m, [])
  | x :: rest => do
    let r1 ← print_one x s m
    let r2 ← if rest.length ≠ 0 then print_one_generic ", " s r1.1 else some (r1.1, [])
    let r3 ← print_array_loop rest s r2.1
    pure (r3.1, r1.2 ++ r2.2 ++ r3.2)
/-- The loop `for (const auto& kv : head)` of `print_map`, on the pairs not yet visited;
`++i != size` says that pairs remain after `kv`. -/
def print_map_loop (pairs : List (Arg × Arg)) (s : Option Stream) (m : Manager) : Step :=
  match pairs with
  | [] => some (m, [])
  | kv :: rest => do
    let r1 ← print_one kv.1 s m
    let r2 ← print_one_generic ":" s r1.1
    let r3 ← print_one kv.2 s r2.1
    let r4 ← if rest.length ≠ 0 then print_one_generic ", " s r3.1 else some (r3.1, [])
    let r5 ← print_map_loop rest s r4.1
    pure (r5.1, r1.2 ++ r2.2 ++ r3.2 ++ r4.2 ++ r5.2)
end

/-- The member `print_array(head, s)`. -/
def print_array (head : List Arg) (s : Option Stream) (m : Manager) : Step :=
  print_array_body (print_array_loop head s) s m

/-- The member `print_map(head, s)`. -/
def print_map (head : List (Arg × Arg)) (s : Option Stream) (m : Manager) : Step :=
  print_map_body (print_map_loop head s) s m

/-! ## `print`, `println`, `print_file`, `println_file` and `log` -/

/-- The members `print()` and `print(head, tail...)`. -/
def print (args : List Arg) (m : Manager) : Step :=
  match args with
  | [] => some (if m.b_base_reset then { m with log_base := .DEC } else m, [])
  | head :: tail => do
    let r1 ← print_one head (some m.primary_stream) m
    let r2 ← if tail.length ≠ 0 then
        print_one_generic r1.1.delim (some r1.1.primary_stream) r1.1
      else some (r1.1, [])
    let r3 ← print tail r2.1
    pure (r3.1, r1.2 ++ r2.2 ++ r3.2)

/-- The members `println()` and `println(head, tail...)`. -/
def println (args : List Arg) (m : Manager) : Step :=
  match args with
  | [] => do
    let r1 ← print_one_generic "\n" (some m.primary_stream) m
    pure (if r1.1.b_base_reset then { r1.1 with log_base := .DEC } else r1.1, r1.2)
  | head :: tail => do
    let r1 ← print_one head (some m.primary_stream) m
    let r2 ← if tail.length ≠ 0 then
        print_one_generic r1.1.delim (some r1.1.primary_stream) r1.1
      else some (r1.1, [])
    let r3 ← println tail r2.1
    pure (r3.1, r1.2 ++ r2.2 ++ r3.2)

/-- The members `print_file()` and `print_file(head, tail...)`. -/
def print_file (args : List Arg) (m : Manager) : Step :=
  match args with
  | [] =>
    if m.file_stream = none then some (m, []) else do
      let r1 ← if m.b_auto_save then stream_call m.file_stream .flush m else some (m, [])
      let r2 ← print [] r1.1
      pure (r2.1, r1.2 ++ r2.2)
  | head :: tail =>
    if m.file_stream = none then some (m, []) else do
      let r1 ← print_one head m.file_stream m
      let r2 ← if tail.length ≠ 0 then
          print_one_generic r1.1.delim r1.1.file_stream r1.1
        else some (r1.1, [])
      let r3 ← print_file tail r2.1
      pure (r3.1, r1.2 ++ r2.2 ++ r3.2)

/-- The members `println_file()` and `println_file(head, tail...)`; the second has no test of
`file_stream`. -/
def println_file (args : List Arg) (m : Manager) : Step :=
  match args with
  | [] =>
    if m.file_stream = none then some (m, []) else do
      let r1 ← print_one_generic "\n" m.file_stream m
      let r2 ← print_file [] r1.1
      pure (r2.1, r1.2 ++ r2.2)
  | head :: tail => do
    let r1 ← print_one head m.file_stream m
    let r2 ← if tail.length ≠ 0 then
        print_one_generic r1.1.delim r1.1.file_stream r1.1
      else some (r1.1, [])
    let r3 ← println_file tail r2.1
    pure (r3.1, r1.2 ++ r2.2 ++ r3.2)

/-- The block of `log` guarded by `level <= log_lvl`: the line on the primary stream. -/
def log_primary (colors : Bool) (level : LogLevel) (args : List Arg) (m : Manager) : Step :=
  if colors then do
    let r1 ← print [.text (generate_color_tag level)] m
    let r2 ← print [.text (generate_header level)] r1.1
    let r3 ← print args r2.1
    let r4 ← println [.text DEBUGLOG_CLEAR_COLOR_TAG] r3.1
    pure (r4.1, r1.2 ++ r2.2 ++ r3.2 ++ r4.2)
  else do
    let r1 ← print [.text (generate_header level)] m
    let r2 ← println args r1.1
    pure (r2.1, r1.2 ++ r2.2)

/-- The part of `log` after the primary block: `if (!file_stream) return;` and the block
guarded by `level <= file_lvl`. -/
def log_file (level : LogLevel) (args : List Arg) (m : Manager) : Step :=
  if m.file_stream = none then some (m, [])
  else if level.u8 ≤ m.file_lvl.u8 then do
    let r1 ← print_file [.text (generate_header level)] m
    let r2 ← println_file args r1.1
    pure (r2.1, r1.2 ++ r2.2)
  else some (m, [])

/-- The member `log(level, args...)`; `colors` says whether `DEBUGLOG_USE_COLORS` is defined. -/
def log (colors : Bool) (level : LogLevel) (args : List Arg) (m : Manager) : Step :=
  let b_ignore := decide (m.log_lvl = .LVL_NONE)
  let b_ignore := b_ignore && decide (m.file_lvl = .LVL_NONE)
  let b_ignore := b_ignore || decide (level = .LVL_NONE)
  if b_ignore then some (m, [])
  else do
    let r1 ← if level.u8 ≤ m.log_lvl.u8 then log_primary colors level args m else some (m, [])
    let r2 ← log_file level args r1.1
    pure (r2.1, r1.2 ++ r2.2)

/-! ## Bytes on a stream -/

/-- How a stream device turns the values handed to it into text.  The logger does not
fix this; the results below hold for every device. -/
structure Device where
  /-- The text of `print(n, base)`. -/
  print_int : Int → Nat → String
  /-- The text of `print(x, digits)`. -/
  print_float : FloatVal → Nat → String
  /-- The line end that `println` appends. -/
  line_end : String

/-- The bytes one call puts on its stream. -/
def Call.bytes (d : Device) : Call → String
  | .print text => text
  | .print_base n base => d.print_int n base
  | .print_prec x digits => d.print_float x digits
  | .println text => text ++ d.line_end
  | .flush => ""

/-- The bytes a sequence of calls puts on a stream. -/
def bytes (d : Device) : List Call → String
  | [] => ""
  | c :: cs => c.bytes d ++ bytes d cs

/-- The calls of `out` that were made on the stream `h`. -/
def calls_on (h : Stream) (out : Out) : List Call :=
  (out.filter (fun e => decide (e.1 = h))).map Prod.snd

/-- The bytes that `out` puts on the stream `h`. -/
def written (d : Device) (h : Stream) (out : Out) : String := bytes d (calls_on h out)

/-- A sample device, for instances of the results: it prints a non-negative integer as its
digits in the given base, without a prefix ("hex `255` renders as `ff`"), and a float as
nothing but a mark. -/
def Device.digits : Device :=
  { print_int := fun n base => String.mk (Nat.toDigits base n.toNat)
    print_float := fun _ _ => "?"
    line_end := "\r\n" }

/-! ## The build without `ARDUINO`: output on `std::cout` -/

namespace Hosted

/-- The data members of `class Manager` in the build without `ARDUINO`. -/
structure Manager where
  log_lvl : LogLevel
  log_base : LogBase
  delim : String
  b_base_reset : Bool
  deriving DecidableEq, Repr

/-- One argument of a `print`/`log` call in the build without `ARDUINO`, where every
scalar goes through the one template `print_one(const Head&)`.

* `text s`: a value whose text `s` on `std::cout` does not depend on the base flag of the
  stream (strings, characters, floating-point values).
* `int n`: an integer, written in the base that the stream is switched to.
* `arr xs`, `map kvs`: the containers.

`LogBase` has no overload of `print_one` in this build. -/
inductive Arg where
  | text (s : String)
  | int (n : Int)
  | arr (xs : List Arg)
  | map (kvs : List (Arg × Arg))

/-- The template `print_one(const Head& head)`: `std::cout` is switched to `log_base` and
`head` is inserted.  The two statements are recorded as one call: `Call.print` for a value
that ignores the base flag, `Call.print_base` for an integer under that flag. -/
def print_one_generic (head : String) (m : Manager) : Manager × List Call :=
  (m, [.print head])

mutual
/-- The overloads of `print_one(head)`. -/
def print_one (head : Arg) (m : Manager) : Manager × List Call :=
  match head with
  | .text t => print_one_generic t m
  | .int n => (m, [.print_base n m.log_base.toNat])
  | .arr xs =>
    let r1 := print_one_generic "[" m
    let r2 := print_array_loop xs r1.1
    let r3 := print_one_generic "]" r2.1
    (r3.1, r1.2 ++ r2.2 ++ r3.2)
  | .map kvs =>
    let r1 := print_one_generic "\x7b" m
    let r2 := print_map_loop kvs r1.1
    let r3 := print_one_generic "\x7d" r2.1
    (r3.1, r1.2 ++ r2.2 ++ r3.2)
/-- The `for` loop of `print_array(head)`, on the elements from index `i` on. -/
def print_array_loop (elems : List Arg) (m : Manager) : Manager × List Call :=
  match elems with
  | [] => (m, [])
  | x :: rest =>
    let r1 := print_one x m
    let r2 := if rest.length ≠ 0 then print_one_generic ", " r1.1 else (r1.1, [])
    let r3 := print_array_loop rest r2.1
    (r3.1, r1.2 ++ r2.2 ++ r3.2)
/-- The `for` loop of `print_map(head)`, on the pairs not yet visited. -/
def print_map_loop (pairs : List (Arg × Arg)) (m : Manager) : Manager × List Call :=
  match pairs with
  | [] => (m, [])
  | kv :: rest =>
    let r1 := print_one kv.1 m
    let r2 := print_one_generic ":" r1.1
    let r3 := print_one kv.2 r2.1
    let r4 := if rest.length ≠ 0 then print_one_generic ", " r3.1 else (r3.1, [])
    let r5 := print_map_loop rest r4.1
    (r5.1, r1.2 ++ r2.2 ++ r3.2 ++ r4.2 ++ r5.2)
end

/-- The member `print_array(head)`. -/
def print_array (head : List Arg) (m : Manager) : Manager × List Call :=
  print_one (.arr head) m

/-- The member `print_map(head)`. -/
def print_map (head : List (Arg × Arg)) (m : Manager) : Manager × List Call :=
  print_one (.map head) m

/-- The members `print()` and `print(head, tail...)`. -/
def print (args : List Arg) (m : Manager) : Manager × List Call :=
  match args with
  | [] => (if m.b_base_reset then { m with log_base := .DEC } else m, [])
  | head :: tail =>
    let r1 := print_one head m
    let r2 := if tail.length ≠ 0 then print_one_generic r1.1.delim r1.1 else (r1.1, [])
    let r3 := print tail r2.1
    (r3.1, r1.2 ++ r2.2 ++ r3.2)

/-- The members `println()` and `println(head, tail...)`. -/
def println (args : List Arg) (m : Manager) : Manager × List Call :=
  match args with
  | [] =>
    let r1 := print_one_generic "\n" m
    (if r1.1.b_base_reset then { r1.1 with log_base := .DEC } else r1.1, r1.2)
  | head :: tail =>
    let r1 := print_one head m
    let r2 := if tail.length ≠ 0 then print_one_generic r1.1.delim r1.1 else (r1.1, [])
    let r3 := println tail r2.1
    (r3.1, r1.2 ++ r2.2 ++ r3.2)

/-- The block of `log` guarded by `level <= log_lvl`. -/
def log_primary (colors : Bool) (level : LogLevel) (args : List Arg) (m : Manager) :
    Manager × List Call :=
  if colors then
    let r1 := print [.text (generate_color_tag level)] m
    let r2 := print [.text (generate_header level)] r1.1
    let r3 := print args r2.1
    let r4 := println [.text DEBUGLOG_CLEAR_COLOR_TAG] r3.1
    (r4.1, r1.2 ++ r2.2 ++ r3.2 ++ r4.2)
  else
    let r1 := print [.text (generate_header level)] m
    let r2 := println args r1.1
    (r2.1, r1.2 ++ r2.2)

/-- The member `log(level, args...)`; `colors` says whether `DEBUGLOG_USE_COLORS` is defined. -/
def log (colors : Bool) (level : LogLevel) (args : List Arg) (m : Manager) :
    Manager × List Call :=
  let b_ignore := decide (m.log_lvl = .LVL_NONE)
  let b_ignore := b_ignore || decide (level = .LVL_NONE)
  if b_ignore then (m, [])
  else if level.u8 ≤ m.log_lvl.u8 then log_primary colors level args m
  else (m, [])

end Hosted

/-! ## Headers and color tags on the value of a level -/

/-- The function `Manager::generate_header` on the numeric value of its argument.  An
object of the type `LogLevel` may hold a value that is none of the six enumerators; the
`switch` then has no matching `case` and control reaches `return ""`. -/
def generate_header_value (lvl : Int) : String :=
  if lvl = LogLevel.LVL_ERROR.toNat then "[ERROR] "
  else if lvl = LogLevel.LVL_WARN.toNat then "[WARN] "
  else if lvl = LogLevel.LVL_INFO.toNat then "[INFO] "
  else if lvl = LogLevel.LVL_DEBUG.toNat then "[DEBUG] "
  else if lvl = LogLevel.LVL_TRACE.toNat then "[TRACE] "
  else if lvl = LogLevel.LVL_NONE.toNat then "[NONE] "
  else ""

/-- The function `generate_color_tag` of `Colors.h` on the numeric value of its argument;
a value that is none of the six enumerators reaches `return ""`. -/
def generate_color_tag_value (lvl : Int) : String :=
  if lvl = LogLevel.LVL_ERROR.toNat then "\x1b[31m"
  else if lvl = LogLevel.LVL_WARN.toNat then "\x1b[33m"
  else if lvl = LogLevel.LVL_INFO.toNat then "\x1b[34m"
  else if lvl = LogLevel.LVL_DEBUG.toNat then "\x1b[35m"
  else if lvl = LogLevel.LVL_TRACE.toNat then "\x1b[37m"
  else if lvl = LogLevel.LVL_NONE.toNat then "\x1b[37m"
  else ""

/-! ## `assertion` -/

/-- How a call of `assertion` ends: it has returned, or it is still inside the loop
`while (true){yield();}`; `out` holds the calls made on the streams. -/
inductive Outcome where
  | returned (out : Out)
  | halted (out : Out)
  deriving DecidableEq, Repr

/-- The loop `while (true){yield();}` run for at most `fuel` iterations: whether it has
been left.  Each iteration tests the condition `true`, calls `yield()` and starts over. -/
def while_true_yield : Nat → Bool
  | 0 => false
  | fuel + 1 => if true then while_true_yield fuel else true

/-- The member `assertion(b, file, line, func, expr, msg)`, with `fuel` iterations for its
final loop.  The `+ line` of the string sum appends the decimal digits of `line`. -/
def assertion (fuel : Nat) (b : Bool) (file : String) (line : Int) (func expr msg : String)
    (m : Manager) : Outcome :=
  if !b then
    let str := "[ASSERT] " ++ file ++ " " ++ toString line ++ " " ++ func ++ " : " ++ expr
    let str := if msg.length ≠ 0 then str ++ (" => " ++ msg) else str
    let o1 : Out := [(m.primary_stream, Call.println str)]
    let o2 : Out :=
      match m.file_stream with
      | some f => [(f, Call.println str), (f, Call.flush)]
      | none => []
    if while_true_yield fuel then .returned (o1 ++ o2) else .halted (o1 ++ o2)
  else .returned []

/-! ## Formatting state: what a call leaves behind -/

mutual
/-- The base that the last base selector inside `a`, in reading order, selects; `b` when
`a` holds none. -/
def Arg.last_base (a : Arg) (b : LogBase) : LogBase :=
  match a with
  | .base b' => b'
  | .arr xs => last_base_list xs b
  | .map kvs => last_base_pairs kvs b
  | _ => b
/-- The base selected last in a list of arguments, `b` when there is no selector. -/
def last_base_list (xs : List Arg) (b : LogBase) : LogBase :=
  match xs with
  | [] => b
  | x :: rest => last_base_list rest (x.last_base b)
/-- The base selected last in a list of pairs, `b` when there is no selector. -/
def last_base_pairs (kvs : List (Arg × Arg)) (b : LogBase) : LogBase :=
  match kvs with
  | [] => b
  | kv :: rest => last_base_pairs rest (kv.2.last_base (kv.1.last_base b))
end

mutual
/-- The precision that the last precision selector inside `a`, in reading order, selects;
`p` when `a` holds none. -/
def Arg.last_prec (a : Arg) (p : LogPrecision) : LogPrecision :=
  match a with
  | .prec p' => p'
  | .arr xs => last_prec_list xs p
  | .map kvs => last_prec_pairs kvs p
  | _ => p
/-- The precision selected last in a list of arguments, `p` when there is no selector. -/
def last_prec_list (xs : List Arg) (p : LogPrecision) : LogPrecision :=
  match xs with
  | [] => p
  | x :: rest => last_prec_list rest (x.last_prec p)
/-- The precision selected last in a list of pairs, `p` when there is no selector. -/
def last_prec_pairs (kvs : List (Arg × Arg)) (p : LogPrecision) : LogPrecision :=
  match kvs with
  | [] => p
  | kv :: rest => last_prec_pairs rest (kv.2.last_prec (kv.1.last_prec p))
end

/-- Whether the argument is a container (`arr` or `map`). -/
def Arg.is_container : Arg → Bool
  | .arr _ => true
  | .map _ => true
  | _ => false

/-- The base in force after `print_one` has handled `a`, started with base `b` and
`b_base_reset = r`: a container ends with the base reset when `r` is set. -/
def Arg.base_after (r : Bool) (a : Arg) (b : LogBase) : LogBase :=
  if r && a.is_container then .DEC else a.last_base b

/-- The manager with another base and precision. -/
def Manager.set_fmt (m : Manager) (B : LogBase) (P : LogPrecision) : Manager :=
  { m with log_base := B, log_precision := P }

/-- The manager after `print()` at the end of a pack: the base is reset when
`b_base_reset` is set. -/
def Manager.reset_base (m : Manager) : Manager :=
  if m.b_base_reset then { m with log_base := .DEC } else m

/-- The calls that `print_one` makes for `a` when the manager is `m`.  They are the same
on every stream (`print_one_eq`); `Serial` is taken to read them off. -/
def Arg.calls (a : Arg) (m : Manager) : List Call :=
  match print_one a (some Serial) m with
  | some r => r.2.map Prod.snd
  | none => []

/-- The manager that `print_one` leaves for `a` when the manager is `m`. -/
def Arg.after (a : Arg) (m : Manager) : Manager :=
  match print_one a (some Serial) m with
  | some r => r.1
  | none => m

/-- The manager after `print_one` has handled the arguments one after the other. -/
def after_list : List Arg → Manager → Manager
  | [], m => m
  | a :: rest, m => after_list rest (a.after m)

/-- The renderings of the arguments of a list: the text that `print_one` puts on the
stream for each of them, handled one after the other from the manager `m`. -/
def renderings (d : Device) : List Arg → Manager → List String
  | [], _ => []
  | a :: rest, m => bytes d (a.calls m) :: renderings d rest (a.after m)

/-- The manager after `print_map` has handled the pairs one after the other. -/
def after_pairs : List (Arg × Arg) → Manager → Manager
  | [], m => m
  | kv :: rest, m => after_pairs rest (kv.2.after (kv.1.after m))

/-- The renderings of the pairs of a mapping: for each pair the rendering of the key, a
colon and the rendering of the value. -/
def pair_renderings (d : Device) : List (Arg × Arg) → Manager → List String
  | [], _ => []
  | kv :: rest, m =>
    (bytes d (kv.1.calls m) ++ ":" ++ bytes d (kv.2.calls (kv.1.after m))) ::
      pair_renderings d rest (kv.2.after (kv.1.after m))

/-- The calls that a pack of arguments gives rise to: the calls of each argument, handled
one after the other from the manager `m`, and a `print` of the separator `sep` after
every argument but the last. -/
def pack_calls (sep : String) : List Arg → Manager → List Call
  | [], _ => []
  | a :: rest, m =>
    a.calls m ++ (if rest.length ≠ 0 then [.print sep] else []) ++ pack_calls sep rest (a.after m)

/-- The calls that the pairs of a mapping give rise to: key, colon, value, and a `print`
of `", "` after every pair but the last. -/
def pair_calls : List (Arg × Arg) → Manager → List Call
  | [], _ => []
  | kv :: rest, m =>
    kv.1.calls m ++ [.print ":"] ++ kv.2.calls (kv.1.after m) ++
      (if rest.length ≠ 0 then [.print ", "] else []) ++
      pair_calls rest (kv.2.after (kv.1.after m))

/-- Whether a threshold `T` admits the level `L`: `L != NONE and L <= T`. -/
def admits (L T : LogLevel) : Bool := decide (L ≠ .LVL_NONE) && decide (L.toNat ≤ T.toNat)

/-- The calls of one leveled line on the primary stream: the color tag (with colors), the
header, the pack with the delimiter, the clear tag (with colors) and the newline.  The
arguments are handled from `m.reset_base`, the manager that `print(header)` leaves. -/
def primary_line (colors : Bool) (level : LogLevel) (args : List Arg) (m : Manager) :
    List Call :=
  (if colors then [Call.print (generate_color_tag level)] else []) ++
    [Call.print (generate_header level)] ++ pack_calls m.delim args m.reset_base ++
    (if colors then [Call.print DEBUGLOG_CLEAR_COLOR_TAG] else []) ++ [Call.print "\n"]

/-- The calls of one leveled line on the file stream: the header, the pack with the
delimiter and the newline, with a `flush` after the header and after the newline when
`b_auto_save` is set. -/
def file_line (level : LogLevel) (args : List Arg) (m : Manager) : List Call :=
  [Call.print (generate_header level)] ++ (if m.b_auto_save then [Call.flush] else []) ++
    pack_calls m.delim args m.reset_base ++ [Call.print "\n"] ++
    (if m.b_auto_save then [Call.flush] else [])

/-- The manager after one leveled line, on either stream. -/
def after_line (args : List Arg) (m : Manager) : Manager :=
  (after_list args m.reset_base).reset_base

namespace Hosted

/-- The manager after `print()` at the end of a pack. -/
def Manager.reset_base (m : Manager) : Manager :=
  if m.b_base_reset then { m with log_base := .DEC } else m

/-- The rendering of an argument: the text that `print_one` puts on `std::cout` for it
when the manager is `m`. -/
def rendering (d : Device) (m : Manager) (a : Arg) : String := bytes d (print_one a m).2

/-- The rendering of a pair of a mapping: key, colon, value. -/
def pair_rendering (d : Device) (m : Manager) (kv : Arg × Arg) : String :=
  rendering d m kv.1 ++ ":" ++ rendering d m kv.2

end Hosted

mutual
/-- Whether a base selector occurs in the argument, at any depth. -/
def Arg.has_base (a : Arg) : Bool :=
  match a with
  | .base _ => true
  | .arr xs => has_base_list xs
  | .map kvs => has_base_pairs kvs
  | _ => false
/-- Whether a base selector occurs in a list of arguments. -/
def has_base_list (xs : List Arg) : Bool :=
  match xs with
  | [] => false
  | x :: rest => x.has_base || has_base_list rest
/-- Whether a base selector occurs in a list of pairs. -/
def has_base_pairs (kvs : List (Arg × Arg)) : Bool :=
  match kvs with
  | [] => false
  | kv :: rest => kv.1.has_base || kv.2.has_base || has_base_pairs rest
end

/-- Whether a call hands an integer to the stream with another base than `B`. -/
def Call.off_base (B : LogBase) : Call → Bool
  | .print_base _ base => decide (base ≠ B.toNat)
  | _ => false

/-- The renderings of the mappings of a sequence: for each mapping an opening brace, its
pair renderings joined by `", "` and a closing brace, the mappings handled one after the
other from the manager `m`. -/
def map_renderings (d : Device) : List (List (Arg × Arg)) → Manager → List String
  | [], _ => []
  | kvs :: rest, m =>
    ("\x7b" ++ String.intercalate ", " (pair_renderings d kvs m) ++ "\x7d") ::
      map_renderings d rest ((Arg.map kvs).after m)

/-- The manager `m'` differs from `m` in the base and the precision at most: thresholds,
delimiter, `b_base_reset`, stream pointers and `b_auto_save` are those of `m`. -/
def Manager.same_config (m m' : Manager) : Prop :=
  m'.log_lvl = m.log_lvl ∧ m'.file_lvl = m.file_lvl ∧ m'.delim = m.delim ∧
    m'.b_base_reset = m.b_base_reset ∧ m'.primary_stream = m.primary_stream ∧
    m'.file_stream = m.file_stream ∧ m'.b_auto_save = m.b_auto_save

/-! ## Basic facts -/

section fmt
variable (m : Manager) (B : LogBase) (P : LogPrecision)

@[simp] theorem set_fmt_log_base : (m.set_fmt B P).log_base = B := rfl
@[simp] theorem set_fmt_log_precision : (m.set_fmt B P).log_precision = P := rfl
@[simp] theorem set_fmt_log_lvl : (m.set_fmt B P).log_lvl = m.log_lvl := rfl
@[simp] theorem set_fmt_file_lvl : (m.set_fmt B P).file_lvl = m.file_lvl := rfl
@[simp] theorem set_fmt_delim : (m.set_fmt B P).delim = m.delim := rfl
@[simp] theorem set_fmt_b_base_reset : (m.set_fmt B P).b_base_reset = m.b_base_reset := rfl
@[simp] theorem set_fmt_primary_stream : (m.set_fmt B P).primary_stream = m.primary_stream := rfl
@[simp] theorem set_fmt_file_stream : (m.set_fmt B P).file_stream = m.file_stream := rfl
@[simp] theorem set_fmt_b_auto_save : (m.set_fmt B P).b_auto_save = m.b_auto_save := rfl
@[simp] theorem set_fmt_set_fmt (B' : LogBase) (P' : LogPrecision) :
    (m.set_fmt B P).set_fmt B' P' = m.set_fmt B' P' := rfl
@[simp] theorem set_fmt_self : m.set_fmt m.log_base m.log_precision = m := rfl

end fmt

theorem stream_call_some (h : Stream) (c : Call) (m : Manager) :
    stream_call (some h) c m = some (m, [(h, c)]) := rfl

theorem print_one_generic_some (t : String) (h : Stream) (m : Manager) :
    print_one_generic t (some h) m = some (m, [(h, .print t)]) := rfl

mutual
/-- On a stream that is not null, `print_one` returns; it changes nothing but the base and
the precision, in the way `base_after` and `last_prec` say; its calls go to that stream
and depend on nothing but the argument, the base, the precision and `b_base_reset`. -/
theorem print_one_local (a : Arg) (b : LogBase) (p : LogPrecision) (r : Bool) :
    ∃ cs : List Call, ∀ (h : Stream) (m : Manager),
      m.log_base = b → m.log_precision = p → m.b_base_reset = r →
      print_one a (some h) m =
        some (m.set_fmt (a.base_after r b) (a.last_prec p), cs.map (Prod.mk h)) := by
  match a with
  | .text t =>
    refine ⟨[.print t], ?_⟩
    intro h m hb hp hr
    subst hb hp hr
    simp [print_one, print_one_generic, stream_call, Arg.base_after, Arg.is_container,
      Arg.last_base, Arg.last_prec]
  | .int n =>
    refine ⟨[.print_base n b.toNat], ?_⟩
    intro h m hb hp hr
    subst hb hp hr
    simp [print_one, print_one_generic, stream_call, Arg.base_after, Arg.is_container,
      Arg.last_base, Arg.last_prec]
  | .flt x =>
    refine ⟨[.print_prec x p.digits], ?_⟩
    intro h m hb hp hr
    subst hb hp hr
    simp [print_one, print_one_generic, stream_call, Arg.base_after, Arg.is_container,
      Arg.last_base, Arg.last_prec]
  | .base b' =>
    refine ⟨[], ?_⟩
    intro h m hb hp hr
    subst hb hp hr
    simp [print_one, Arg.base_after, Arg.is_container, Arg.last_base, Arg.last_prec,
      Manager.set_fmt]
  | .prec p' =>
    refine ⟨[], ?_⟩
    intro h m hb hp hr
    subst hb hp hr
    simp [print_one, Arg.base_after, Arg.is_container, Arg.last_base, Arg.last_prec,
      Manager.set_fmt]
  | .arr xs =>
    obtain ⟨B, cs, hB, hrun⟩ := print_array_loop_local xs b p false
    refine ⟨[.print "["] ++ cs ++ [.print "]"], ?_⟩
    intro h m hb hp hr
    have h2 := hrun h { m with b_base_reset := false } hb hp rfl
    subst hb hp hr
    cases hr : m.b_base_reset <;>
    simp [print_one, print_array_body, print_one_generic, stream_call, h2, Arg.base_after,
      Arg.is_container, Arg.last_base, Arg.last_prec, hB, hr, Manager.set_fmt]
  | .map kvs =>
    obtain ⟨B, cs, hB, hrun⟩ := print_map_loop_local kvs b p r
    refine ⟨[.print "\x7b"] ++ cs ++ [.print "\x7d"], ?_⟩
    intro h m hb hp hr
    have h2 := hrun h m hb hp hr
    subst hb hp hr
    cases hr : m.b_base_reset <;>
    simp [print_one, print_map_body, print_one_generic, stream_call, h2, Arg.base_after,
      Arg.is_container, Arg.last_base, Arg.last_prec, hB, hr, Manager.set_fmt]
/-- The loop of `print_array` on a stream that is not null: see `print_one_local`. -/
theorem print_array_loop_local (xs : List Arg) (b : LogBase) (p : LogPrecision) (r : Bool) :
    ∃ (B : LogBase) (cs : List Call), (r = false → B = last_base_list xs b) ∧
      ∀ (h : Stream) (m : Manager),
      m.log_base = b → m.log_precision = p → m.b_base_reset = r →
      print_array_loop xs (some h) m =
        some (m.set_fmt B (last_prec_list xs p), cs.map (Prod.mk h)) := by
  match xs with
  | [] =>
    refine ⟨b, [], fun _ => by simp [last_base_list], ?_⟩
    intro h m hb hp hr
    subst hb hp hr
    simp [print_array_loop, last_prec_list]
  | x :: rest =>
    obtain ⟨cs1, h1⟩ := print_one_local x b p r
    obtain ⟨B, cs3, hB, h3⟩ := print_array_loop_local rest (x.base_after r b) (x.last_prec p) r
    refine ⟨B, cs1 ++ (if rest.length ≠ 0 then [.print ", "] else []) ++ cs3, ?_, ?_⟩
    · intro hr
      subst hr
      simpa [last_base_list, Arg.base_after] using hB rfl
    · intro h m hb hp hr
      have e1 := h1 h m hb hp hr
      have e3 := h3 h (m.set_fmt (x.base_after r b) (x.last_prec p)) rfl rfl hr
      by_cases hl : rest.length ≠ 0 <;>
      simp [print_array_loop, e1, hl, print_one_generic, stream_call, e3, last_prec_list]
/-- The loop of `print_map` on a stream that is not null: see `print_one_local`. -/
theorem print_map_loop_local (kvs : List (Arg × Arg)) (b : LogBase) (p : LogPrecision)
    (r : Bool) :
    ∃ (B : LogBase) (cs : List Call), (r = false → B = last_base_pairs kvs b) ∧
      ∀ (h : Stream) (m : Manager),
      m.log_base = b → m.log_precision = p → m.b_base_reset = r →
      print_map_loop kvs (some h) m =
        some (m.set_fmt B (last_prec_pairs kvs p), cs.map (Prod.mk h)) := by
  match kvs with
  | [] =>
    refine ⟨b, [], fun _ => by simp [last_base_pairs], ?_⟩
    intro h m hb hp hr
    subst hb hp hr
    simp [print_map_loop, last_prec_pairs]
  | (k, v) :: rest =>
    obtain ⟨cs1, h1⟩ := print_one_local k b p r
    obtain ⟨cs2, h2⟩ := print_one_local v (k.base_after r b) (k.last_prec p) r
    obtain ⟨B, cs3, hB, h3⟩ := print_map_loop_local rest (v.base_after r (k.base_after r b))
      (v.last_prec (k.last_prec p)) r
    refine ⟨B, cs1 ++ [.print ":"] ++ cs2 ++ (if rest.length ≠ 0 then [.print ", "] else [])
      ++ cs3, ?_, ?_⟩
    · intro hr
      subst hr
      simpa [last_base_pairs, Arg.base_after] using hB rfl
    · intro h m hb hp hr
      have e1 := h1 h m hb hp hr
      have e2 := h2 h (m.set_fmt (k.base_after r b) (k.last_prec p)) rfl rfl hr
      have e3 := h3 h (m.set_fmt (v.base_after r (k.base_after r b))
        (v.last_prec (k.last_prec p))) rfl rfl hr
      by_cases hl : rest.length ≠ 0 <;>
      simp [print_map_loop, e1, e2, hl, print_one_generic, stream_call, e3, last_prec_pairs]
end

theorem bytes_append (d : Device) (xs ys : List Call) :
    bytes d (xs ++ ys) = bytes d xs ++ bytes d ys := by
  induction xs with
  | nil => simp [bytes]
  | cons c cs ih => simp [bytes, ih, String.append_assoc]

theorem calls_on_append (h : Stream) (xs ys : Out) :
    calls_on h (xs ++ ys) = calls_on h xs ++ calls_on h ys := by
  simp [calls_on]

theorem calls_on_map_same (h : Stream) (cs : List Call) :
    calls_on h (cs.map (Prod.mk h)) = cs := by
  induction cs with
  | nil => rfl
  | cons c cs ih =>
    simp only [calls_on] at ih
    simp [calls_on, ih]

theorem calls_on_map_other (h h' : Stream) (cs : List Call) (hne : h ≠ h') :
    calls_on h' (cs.map (Prod.mk h)) = [] := by
  induction cs with
  | nil => rfl
  | cons c cs ih =>
    simp only [calls_on] at ih
    simp [calls_on, ih, hne]

theorem written_append (d : Device) (h : Stream) (xs ys : Out) :
    written d h (xs ++ ys) = written d h xs ++ written d h ys := by
  simp [written, calls_on_append, bytes_append]

theorem written_map_same (d : Device) (h : Stream) (cs : List Call) :
    written d h (cs.map (Prod.mk h)) = bytes d cs := by
  simp [written, calls_on_map_same]

theorem written_map_other (d : Device) (h h' : Stream) (cs : List Call) (hne : h ≠ h') :
    written d h' (cs.map (Prod.mk h)) = "" := by
  simp [written, calls_on_map_other h h' cs hne, bytes]

theorem intercalate_go_append (a b s : String) (l : List String) :
    String.intercalate.go (a ++ b) s l = a ++ String.intercalate.go b s l := by
  induction l generalizing b with
  | nil => simp [String.intercalate.go]
  | cons x xs ih =>
    simp only [String.intercalate.go]
    rw [String.append_assoc, String.append_assoc, ih, String.append_assoc]

theorem intercalate_single (s x : String) : String.intercalate s [x] = x := by
  simp [String.intercalate, String.intercalate.go]

theorem intercalate_cons_cons (s x y : String) (l : List String) :
    String.intercalate s (x :: y :: l) = x ++ s ++ String.intercalate s (y :: l) := by
  simp only [String.intercalate, String.intercalate.go]
  rw [String.append_assoc, String.append_assoc, intercalate_go_append, intercalate_go_append]

theorem print_one_eq (a : Arg) (h : Stream) (m : Manager) :
    print_one a (some h) m = some (a.after m, (a.calls m).map (Prod.mk h)) := by
  obtain ⟨cs, hcs⟩ := print_one_local a m.log_base m.log_precision m.b_base_reset
  have e1 := hcs Serial m rfl rfl rfl
  have e2 := hcs h m rfl rfl rfl
  simp [Arg.after, Arg.calls, e1, e2, Function.comp_def]

theorem after_eq (a : Arg) (m : Manager) :
    a.after m = m.set_fmt (a.base_after m.b_base_reset m.log_base) (a.last_prec m.log_precision) := by
  obtain ⟨cs, hcs⟩ := print_one_local a m.log_base m.log_precision m.b_base_reset
  have e1 := hcs Serial m rfl rfl rfl
  simp [Arg.after, e1]

theorem calls_congr (a : Arg) (m m' : Manager) (hb : m'.log_base = m.log_base)
    (hp : m'.log_precision = m.log_precision) (hr : m'.b_base_reset = m.b_base_reset) :
    a.calls m' = a.calls m := by
  obtain ⟨cs, hcs⟩ := print_one_local a m.log_base m.log_precision m.b_base_reset
  have e1 := hcs Serial m rfl rfl rfl
  have e2 := hcs Serial m' hb hp hr
  simp [Arg.calls, e1, e2]

section after
variable (a : Arg) (m : Manager)

@[simp] theorem after_log_lvl : (a.after m).log_lvl = m.log_lvl := by simp [after_eq]
@[simp] theorem after_file_lvl : (a.after m).file_lvl = m.file_lvl := by simp [after_eq]
@[simp] theorem after_delim : (a.after m).delim = m.delim := by simp [after_eq]
@[simp] theorem after_b_base_reset : (a.after m).b_base_reset = m.b_base_reset := by
  simp [after_eq]
@[simp] theorem after_primary_stream : (a.after m).primary_stream = m.primary_stream := by
  simp [after_eq]
@[simp] theorem after_file_stream : (a.after m).file_stream = m.file_stream := by
  simp [after_eq]
@[simp] theorem after_b_auto_save : (a.after m).b_auto_save = m.b_auto_save := by
  simp [after_eq]
theorem after_log_precision : (a.after m).log_precision = a.last_prec m.log_precision := by
  simp [after_eq]
theorem after_log_base :
    (a.after m).log_base = a.base_after m.b_base_reset m.log_base := by
  simp [after_eq]

end after

section reset
variable (m : Manager)

@[simp] theorem reset_base_log_lvl : m.reset_base.log_lvl = m.log_lvl := by
  unfold Manager.reset_base; split <;> rfl
@[simp] theorem reset_base_file_lvl : m.reset_base.file_lvl = m.file_lvl := by
  unfold Manager.reset_base; split <;> rfl
@[simp] theorem reset_base_delim : m.reset_base.delim = m.delim := by
  unfold Manager.reset_base; split <;> rfl
@[simp] theorem reset_base_b_base_reset : m.reset_base.b_base_reset = m.b_base_reset := by
  unfold Manager.reset_base; split <;> rfl
@[simp] theorem reset_base_primary_stream : m.reset_base.primary_stream = m.primary_stream := by
  unfold Manager.reset_base; split <;> rfl
@[simp] theorem reset_base_file_stream : m.reset_base.file_stream = m.file_stream := by
  unfold Manager.reset_base; split <;> rfl
@[simp] theorem reset_base_b_auto_save : m.reset_base.b_auto_save = m.b_auto_save := by
  unfold Manager.reset_base; split <;> rfl
@[simp] theorem reset_base_log_precision : m.reset_base.log_precision = m.log_precision := by
  unfold Manager.reset_base; split <;> rfl
theorem reset_base_log_base :
    m.reset_base.log_base = if m.b_base_reset then .DEC else m.log_base := by
  unfold Manager.reset_base; split <;> rfl
@[simp] theorem reset_base_reset_base : m.reset_base.reset_base = m.reset_base := by
  unfold Manager.reset_base
  cases h : m.b_base_reset <;> simp [h]

end reset

section after_list
variable (xs : List Arg) (m : Manager)

@[simp] theorem after_list_log_lvl : (after_list xs m).log_lvl = m.log_lvl := by
  induction xs generalizing m with
  | nil => rfl
  | cons a rest ih => simp [after_list, ih]
@[simp] theorem after_list_file_lvl : (after_list xs m).file_lvl = m.file_lvl := by
  induction xs generalizing m with
  | nil => rfl
  | cons a rest ih => simp [after_list, ih]
@[simp] theorem after_list_delim : (after_list xs m).delim = m.delim := by
  induction xs generalizing m with
  | nil => rfl
  | cons a rest ih => simp [after_list, ih]
@[simp] theorem after_list_b_base_reset : (after_list xs m).b_base_reset = m.b_base_reset := by
  induction xs generalizing m with
  | nil => rfl
  | cons a rest ih => simp [after_list, ih]
@[simp] theorem after_list_primary_stream :
    (after_list xs m).primary_stream = m.primary_stream := by
  induction xs generalizing m with
  | nil => rfl
  | cons a rest ih => simp [after_list, ih]
@[simp] theorem after_list_file_stream : (after_list xs m).file_stream = m.file_stream := by
  induction xs generalizing m with
  | nil => rfl
  | cons a rest ih => simp [after_list, ih]
@[simp] theorem after_list_b_auto_save : (after_list xs m).b_auto_save = m.b_auto_save := by
  induction xs generalizing m with
  | nil => rfl
  | cons a rest ih => simp [after_list, ih]
theorem after_list_log_precision :
    (after_list xs m).log_precision = last_prec_list xs m.log_precision := by
  induction xs generalizing m with
  | nil => rfl
  | cons a rest ih => simp [after_list, ih, last_prec_list, after_log_precision]

end after_list

theorem print_array_loop_eq (xs : List Arg) (h : Stream) (m : Manager) :
    print_array_loop xs (some h) m =
      some (after_list xs m, (pack_calls ", " xs m).map (Prod.mk h)) := by
  induction xs generalizing m with
  | nil => rfl
  | cons a rest ih =>
    by_cases hl : rest.length ≠ 0 <;>
    simp [print_array_loop, print_one_eq, hl, print_one_generic, stream_call, ih, after_list,
      pack_calls]

theorem print_map_loop_eq (kvs : List (Arg × Arg)) (h : Stream) (m : Manager) :
    print_map_loop kvs (some h) m =
      some (after_pairs kvs m, (pair_calls kvs m).map (Prod.mk h)) := by
  induction kvs generalizing m with
  | nil => rfl
  | cons kv rest ih =>
    by_cases hl : rest.length ≠ 0 <;>
    simp [print_map_loop, print_one_eq, hl, print_one_generic, stream_call, ih, after_pairs,
      pair_calls]

theorem print_eq (args : List Arg) (m : Manager) :
    print args m = some ((after_list args m).reset_base,
      (pack_calls m.delim args m).map (Prod.mk m.primary_stream)) := by
  induction args generalizing m with
  | nil => rfl
  | cons a rest ih =>
    by_cases hl : rest.length ≠ 0 <;>
    simp [print, print_one_eq, hl, print_one_generic, stream_call, ih, after_list,
      pack_calls]

theorem println_eq (args : List Arg) (m : Manager) :
    println args m = some ((after_list args m).reset_base,
      (pack_calls m.delim args m ++ [Call.print "\n"]).map (Prod.mk m.primary_stream)) := by
  induction args generalizing m with
  | nil => rfl
  | cons a rest ih =>
    by_cases hl : rest.length ≠ 0 <;>
    simp [println, print_one_eq, hl, print_one_generic, stream_call, ih, after_list,
      pack_calls]

theorem print_file_eq (args : List Arg) (m : Manager) (f : Stream)
    (hf : m.file_stream = some f) :
    print_file args m = some ((after_list args m).reset_base,
      (pack_calls m.delim args m ++ (if m.b_auto_save then [Call.flush] else [])).map
        (Prod.mk f)) := by
  induction args generalizing m with
  | nil =>
    cases hs : m.b_auto_save <;>
    simp [print_file, hf, hs, stream_call, print, after_list, pack_calls, Manager.reset_base]
  | cons a rest ih =>
    have ih' := ih (a.after m) (by simpa using hf)
    by_cases hl : rest.length ≠ 0 <;>
    simp [print_file, print_one_eq, hl, print_one_generic, stream_call, ih', after_list,
      pack_calls, hf]

theorem println_file_eq (args : List Arg) (m : Manager) (f : Stream)
    (hf : m.file_stream = some f) :
    println_file args m = some ((after_list args m).reset_base,
      (pack_calls m.delim args m ++ [Call.print "\n"] ++
        (if m.b_auto_save then [Call.flush] else [])).map (Prod.mk f)) := by
  induction args generalizing m with
  | nil =>
    have e := print_file_eq [] m f hf
    simp [println_file, hf, print_one_generic, stream_call, e, after_list, pack_calls]
  | cons a rest ih =>
    have ih' := ih (a.after m) (by simpa using hf)
    by_cases hl : rest.length ≠ 0 <;>
    simp [println_file, print_one_eq, hl, print_one_generic, stream_call, ih', after_list,
      pack_calls, hf]

theorem bytes_pack_calls (d : Device) (sep : String) (args : List Arg) (m : Manager) :
    bytes d (pack_calls sep args m) = String.intercalate sep (renderings d args m) := by
  induction args generalizing m with
  | nil => rfl
  | cons a rest ih =>
    cases rest with
    | nil => simp [pack_calls, renderings, bytes_append, bytes, intercalate_single]
    | cons b rest' =>
      have ih' := ih (a.after m)
      simp only [renderings] at ih' ⊢
      rw [intercalate_cons_cons, ← ih']
      simp [pack_calls, bytes_append, bytes, Call.bytes, String.append_assoc]

theorem bytes_pair_calls (d : Device) (kvs : List (Arg × Arg)) (m : Manager) :
    bytes d (pair_calls kvs m) = String.intercalate ", " (pair_renderings d kvs m) := by
  induction kvs generalizing m with
  | nil => rfl
  | cons kv rest ih =>
    cases rest with
    | nil =>
      simp [pair_calls, pair_renderings, bytes_append, bytes, Call.bytes, intercalate_single,
        String.append_assoc]
    | cons b rest' =>
      have ih' := ih (kv.2.after (kv.1.after m))
      simp only [pair_renderings] at ih' ⊢
      rw [intercalate_cons_cons, ← ih']
      simp [pair_calls, bytes_append, bytes, Call.bytes, String.append_assoc]

theorem u8_eq (l : LogLevel) : l.u8 = l.toNat := by
  cases l <;> rfl

theorem calls_text (t : String) (m : Manager) : (Arg.text t).calls m = [Call.print t] := rfl

theorem after_text (t : String) (m : Manager) : (Arg.text t).after m = m := rfl

theorem calls_int (n : Int) (m : Manager) :
    (Arg.int n).calls m = [Call.print_base n m.log_base.toNat] := rfl

theorem after_int (n : Int) (m : Manager) : (Arg.int n).after m = m := rfl

theorem calls_flt (x : FloatVal) (m : Manager) :
    (Arg.flt x).calls m = [Call.print_prec x m.log_precision.digits] := rfl

theorem after_flt (x : FloatVal) (m : Manager) : (Arg.flt x).after m = m := rfl

theorem calls_base (b : LogBase) (m : Manager) : (Arg.base b).calls m = [] := rfl

theorem after_base (b : LogBase) (m : Manager) :
    (Arg.base b).after m = { m with log_base := b } := rfl

theorem calls_prec (p : LogPrecision) (m : Manager) : (Arg.prec p).calls m = [] := rfl

theorem after_prec (p : LogPrecision) (m : Manager) :
    (Arg.prec p).after m = { m with log_precision := p } := rfl

theorem print_array_eq_print_one (xs : List Arg) (s : Option Stream) (m : Manager) :
    print_array xs s m = print_one (.arr xs) s m := by
  simp [print_array, print_one]

theorem print_map_eq_print_one (kvs : List (Arg × Arg)) (s : Option Stream) (m : Manager) :
    print_map kvs s m = print_one (.map kvs) s m := by
  simp [print_map, print_one]

theorem calls_arr (xs : List Arg) (m : Manager) :
    (Arg.arr xs).calls m =
      [Call.print "["] ++ pack_calls ", " xs { m with b_base_reset := false } ++
        [Call.print "]"] := by
  simp [Arg.calls, print_one, print_array_body, print_array_loop_eq, print_one_generic,
    stream_call, Function.comp_def]

theorem calls_map (kvs : List (Arg × Arg)) (m : Manager) :
    (Arg.map kvs).calls m =
      [Call.print "\x7b"] ++ pair_calls kvs m ++ [Call.print "\x7d"] := by
  simp [Arg.calls, print_one, print_map_body, print_map_loop_eq, print_one_generic,
    stream_call, Function.comp_def]

section after_line
variable (args : List Arg) (m : Manager)

@[simp] theorem after_line_log_lvl : (after_line args m).log_lvl = m.log_lvl := by
  simp [after_line]
@[simp] theorem after_line_file_lvl : (after_line args m).file_lvl = m.file_lvl := by
  simp [after_line]
@[simp] theorem after_line_delim : (after_line args m).delim = m.delim := by
  simp [after_line]
@[simp] theorem after_line_b_base_reset :
    (after_line args m).b_base_reset = m.b_base_reset := by
  simp [after_line]
@[simp] theorem after_line_primary_stream :
    (after_line args m).primary_stream = m.primary_stream := by
  simp [after_line]
@[simp] theorem after_line_file_stream : (after_line args m).file_stream = m.file_stream := by
  simp [after_line]
@[simp] theorem after_line_b_auto_save : (after_line args m).b_auto_save = m.b_auto_save := by
  simp [after_line]

end after_line

theorem toNat_eq_zero (l : LogLevel) : l.toNat = 0 ↔ l = .LVL_NONE := by
  cases l <;> simp [LogLevel.toNat]

theorem log_primary_eq (colors : Bool) (level : LogLevel) (args : List Arg) (m : Manager) :
    log_primary colors level args m =
      some (after_line args m,
        (primary_line colors level args m).map (Prod.mk m.primary_stream)) := by
  cases colors <;>
  simp [log_primary, print_eq, println_eq, after_list, pack_calls, calls_text, after_text,
    primary_line, after_line]

theorem log_file_none (level : LogLevel) (args : List Arg) (m : Manager)
    (hf : m.file_stream = none) : log_file level args m = some (m, []) := by
  simp [log_file, hf]

theorem log_file_eq (level : LogLevel) (args : List Arg) (m : Manager) (f : Stream)
    (hf : m.file_stream = some f) :
    log_file level args m =
      if level.toNat ≤ m.file_lvl.toNat then
        some (after_line args m, (file_line level args m).map (Prod.mk f))
      else some (m, []) := by
  have e1 := print_file_eq [Arg.text (generate_header level)] m f hf
  have e2 := println_file_eq args m.reset_base f (by simpa using hf)
  by_cases hl : level.toNat ≤ m.file_lvl.toNat <;>
  simp [log_file, hf, u8_eq, hl, e1, e2, after_list, pack_calls, calls_text, after_text,
    file_line, after_line]

/-- The normal form of `log`: which lines it writes, to which stream, and the manager it
leaves. -/
theorem log_eq (colors : Bool) (level : LogLevel) (args : List Arg) (m : Manager) :
    log colors level args m =
      some (
        (if m.file_stream.isSome && admits level m.file_lvl then
          after_line args (if admits level m.log_lvl then after_line args m else m)
        else if admits level m.log_lvl then after_line args m else m),
        (if admits level m.log_lvl then
          (primary_line colors level args m).map (Prod.mk m.primary_stream) else []) ++
        (match m.file_stream with
          | some f =>
            if admits level m.file_lvl then
              (file_line level args
                (if admits level m.log_lvl then after_line args m else m)).map (Prod.mk f)
            else []
          | none => [])) := by
  by_cases hL : level = .LVL_NONE
  · subst hL
    cases hf : m.file_stream <;> simp [log, admits]
  · have hpos : level.toNat ≠ 0 := fun h => hL ((toNat_eq_zero level).1 h)
    have hz : ¬ level.toNat ≤ LogLevel.LVL_NONE.toNat := fun h => hpos (Nat.le_zero.1 h)
    by_cases h1 : level.toNat ≤ m.log_lvl.toNat
    · have hn1 : m.log_lvl ≠ .LVL_NONE := by
        intro h
        rw [h] at h1
        exact hpos (Nat.le_zero.1 h1)
      cases hf : m.file_stream with
      | none => simp [log, admits, hL, h1, hn1, hf, u8_eq, log_primary_eq, log_file_none]
      | some f =>
        by_cases h2 : level.toNat ≤ m.file_lvl.toNat <;>
        simp [log, admits, hL, h1, hn1, h2, hf, u8_eq, log_primary_eq, log_file_eq]
    · cases hf : m.file_stream with
      | none =>
        by_cases hi : m.log_lvl = .LVL_NONE ∧ m.file_lvl = .LVL_NONE <;>
        simp [log, admits, hL, h1, hf, u8_eq, log_file_none, hi, hz]
      | some f =>
        by_cases h2 : level.toNat ≤ m.file_lvl.toNat
        · have hn2 : m.file_lvl ≠ .LVL_NONE := by
            intro h
            rw [h] at h2
            exact hpos (Nat.le_zero.1 h2)
          simp [log, admits, hL, h1, hn2, h2, hf, u8_eq, log_file_eq]
        · by_cases hi : m.log_lvl = .LVL_NONE ∧ m.file_lvl = .LVL_NONE <;>
          simp [log, admits, hL, h1, h2, hf, u8_eq, log_file_eq, hi, hz]

namespace Hosted

mutual
/-- In the build without `ARDUINO`, `print_one` leaves the manager as it is. -/
theorem print_one_fst (a : Arg) (m : Manager) : (print_one a m).1 = m := by
  match a with
  | .text t => rfl
  | .int n => rfl
  | .arr xs => simp [print_one, print_one_generic, print_array_loop_fst xs m]
  | .map kvs => simp [print_one, print_one_generic, print_map_loop_fst kvs m]
/-- The loop of `print_array` leaves the manager as it is. -/
theorem print_array_loop_fst (xs : List Arg) (m : Manager) : (print_array_loop xs m).1 = m := by
  match xs with
  | [] => rfl
  | x :: rest =>
    by_cases hl : rest.length ≠ 0 <;>
    simp [print_array_loop, hl, print_one_generic, print_one_fst x m,
      print_array_loop_fst rest m]
/-- The loop of `print_map` leaves the manager as it is. -/
theorem print_map_loop_fst (kvs : List (Arg × Arg)) (m : Manager) :
    (print_map_loop kvs m).1 = m := by
  match kvs with
  | [] => rfl
  | (k, v) :: rest =>
    by_cases hl : rest.length ≠ 0 <;>
    simp [print_map_loop, hl, print_one_generic, print_one_fst k m, print_one_fst v m,
      print_map_loop_fst rest m]
end

theorem bytes_print_array_loop (d : Device) (xs : List Arg) (m : Manager) :
    bytes d (print_array_loop xs m).2 = String.intercalate ", " (xs.map (rendering d m)) := by
  induction xs with
  | nil => rfl
  | cons a rest ih =>
    cases rest with
    | nil =>
      simp [print_array_loop, bytes_append, bytes, intercalate_single, rendering]
    | cons b rest' =>
      simp only [List.map] at ih ⊢
      rw [intercalate_cons_cons, ← ih]
      simp [print_array_loop, print_one_generic, print_one_fst, bytes_append, bytes,
        Call.bytes, String.append_assoc, rendering]

theorem bytes_print_map_loop (d : Device) (kvs : List (Arg × Arg)) (m : Manager) :
    bytes d (print_map_loop kvs m).2 =
      String.intercalate ", " (kvs.map (pair_rendering d m)) := by
  induction kvs with
  | nil => rfl
  | cons a rest ih =>
    cases rest with
    | nil =>
      simp [print_map_loop, print_one_generic, print_one_fst, bytes_append, bytes, Call.bytes,
        intercalate_single, rendering, pair_rendering, String.append_assoc]
    | cons b rest' =>
      simp only [List.map] at ih ⊢
      rw [intercalate_cons_cons, ← ih]
      simp [print_map_loop, print_one_generic, print_one_fst, bytes_append, bytes,
        Call.bytes, String.append_assoc, rendering, pair_rendering]

theorem print_fst (args : List Arg) (m : Manager) : (print args m).1 = m.reset_base := by
  induction args with
  | nil => rfl
  | cons a rest ih =>
    by_cases hl : rest.length ≠ 0 <;>
    simp [print, hl, print_one_generic, print_one_fst, ih]

theorem println_fst (args : List Arg) (m : Manager) : (println args m).1 = m.reset_base := by
  induction args with
  | nil => rfl
  | cons a rest ih =>
    by_cases hl : rest.length ≠ 0 <;>
    simp [println, hl, print_one_generic, print_one_fst, ih]

theorem bytes_print (d : Device) (args : List Arg) (m : Manager) :
    bytes d (print args m).2 = String.intercalate m.delim (args.map (rendering d m)) := by
  induction args with
  | nil => rfl
  | cons a rest ih =>
    cases rest with
    | nil => simp [print, bytes_append, bytes, intercalate_single, rendering]
    | cons b rest' =>
      simp only [List.map] at ih ⊢
      rw [intercalate_cons_cons, ← ih]
      simp [print, print_one_generic, print_one_fst, bytes_append, bytes, Call.bytes,
        String.append_assoc, rendering]

theorem bytes_println (d : Device) (args : List Arg) (m : Manager) :
    bytes d (println args m).2 =
      String.intercalate m.delim (args.map (rendering d m)) ++ "\n" := by
  induction args with
  | nil => rfl
  | cons a rest ih =>
    cases rest with
    | nil =>
      simp [println, print_one_generic, bytes_append, bytes, Call.bytes, intercalate_single,
        rendering, print_one_fst]
    | cons b rest' =>
      simp only [List.map] at ih ⊢
      rw [intercalate_cons_cons, String.append_assoc, ← ih]
      simp [println, print_one_generic, print_one_fst, bytes_append, bytes, Call.bytes,
        String.append_assoc, rendering]

section reset
variable (m : Manager)

@[simp] theorem hosted_reset_base_log_lvl : m.reset_base.log_lvl = m.log_lvl := by
  unfold Manager.reset_base; split <;> rfl
@[simp] theorem hosted_reset_base_delim : m.reset_base.delim = m.delim := by
  unfold Manager.reset_base; split <;> rfl
@[simp] theorem hosted_reset_base_b_base_reset : m.reset_base.b_base_reset = m.b_base_reset := by
  unfold Manager.reset_base; split <;> rfl
@[simp] theorem hosted_reset_base_reset_base : m.reset_base.reset_base = m.reset_base := by
  unfold Manager.reset_base
  cases h : m.b_base_reset <;> simp [h]

end reset

theorem bytes_log_primary (d : Device) (colors : Bool) (level : LogLevel) (args : List Arg)
    (m : Manager) :
    bytes d (log_primary colors level args m).2 =
      (if colors then generate_color_tag level else "") ++ generate_header level ++
        String.intercalate m.delim (args.map (rendering d m.reset_base)) ++
        (if colors then DEBUGLOG_CLEAR_COLOR_TAG else "") ++ "\n" := by
  cases colors <;>
  simp [log_primary, bytes_append, bytes_print, bytes_println, print_fst, rendering,
    print_one, print_one_generic, bytes, Call.bytes, intercalate_single, String.append_assoc]

theorem hosted_log_eq (colors : Bool) (level : LogLevel) (args : List Arg) (m : Manager) :
    log colors level args m =
      if admits level m.log_lvl then log_primary colors level args m else (m, []) := by
  by_cases hL : level = .LVL_NONE
  · subst hL
    simp [log, admits]
  · by_cases h1 : level.toNat ≤ m.log_lvl.toNat
    · have hn1 : m.log_lvl ≠ .LVL_NONE := by
        intro h
        rw [h] at h1
        exact hL ((toNat_eq_zero level).1 (Nat.le_zero.1 h1))
      simp [log, admits, hL, h1, hn1, u8_eq]
    · have hz : ¬ level.toNat ≤ LogLevel.LVL_NONE.toNat :=
        fun h => hL ((toNat_eq_zero level).1 (Nat.le_zero.1 h))
      by_cases hi : m.log_lvl = .LVL_NONE <;>
      simp [log, admits, hL, h1, u8_eq, hi, hz]

end Hosted

/-! ## Shared facts about lines -/

theorem admits_iff (L T : LogLevel) :
    admits L T = true ↔ L ≠ .LVL_NONE ∧ L.toNat ≤ T.toNat := by
  simp [admits]

theorem admits_none_left (T : LogLevel) : admits .LVL_NONE T = false := rfl

theorem admits_none_right (L : LogLevel) : admits L .LVL_NONE = false := by
  cases L <;> rfl

theorem bytes_primary_line (d : Device) (colors : Bool) (L : LogLevel) (args : List Arg)
    (m : Manager) :
    bytes d (primary_line colors L args m) =
      (if colors then generate_color_tag L else "") ++ generate_header L ++
        String.intercalate m.delim (renderings d args m.reset_base) ++
        (if colors then DEBUGLOG_CLEAR_COLOR_TAG else "") ++ "\n" := by
  cases colors <;>
  simp [primary_line, bytes_append, bytes, Call.bytes, bytes_pack_calls, String.append_assoc]

theorem bytes_file_line (d : Device) (L : LogLevel) (args : List Arg) (m : Manager) :
    bytes d (file_line L args m) =
      generate_header L ++ String.intercalate m.delim (renderings d args m.reset_base) ++
        "\n" := by
  cases hs : m.b_auto_save <;>
  simp [file_line, hs, bytes_append, bytes, Call.bytes, bytes_pack_calls, String.append_assoc]

theorem newline_length : ("\n" : String).length = 1 := rfl

theorem bytes_primary_line_pos (d : Device) (colors : Bool) (L : LogLevel) (args : List Arg)
    (m : Manager) : 0 < (bytes d (primary_line colors L args m)).length := by
  rw [bytes_primary_line, String.length_append, newline_length]
  omega

theorem bytes_file_line_pos (d : Device) (L : LogLevel) (args : List Arg) (m : Manager) :
    0 < (bytes d (file_line L args m)).length := by
  rw [bytes_file_line, String.length_append, newline_length]
  omega

theorem written_nil (d : Device) (h : Stream) : written d h [] = "" := rfl

theorem empty_length : ("" : String).length = 0 := rfl

/-- What `log` puts on the primary stream when the file stream is another stream or is
not attached. -/
theorem written_log_primary (d : Device) (colors : Bool) (L : LogLevel) (args : List Arg)
    (m : Manager) (hdist : m.file_stream ≠ some m.primary_stream) :
    ∃ r, log colors L args m = some r ∧
      written d m.primary_stream r.2 =
        if admits L m.log_lvl then bytes d (primary_line colors L args m) else "" := by
  refine ⟨_, log_eq colors L args m, ?_⟩
  have hP : ∀ cs : List Call,
      written d m.primary_stream (cs.map (Prod.mk m.primary_stream)) = bytes d cs :=
    fun cs => written_map_same d _ cs
  cases hf : m.file_stream with
  | none =>
    by_cases h1 : admits L m.log_lvl = true <;>
    simp [written_append, hP, h1, written_nil]
  | some f =>
    have hne : f ≠ m.primary_stream := fun h => hdist (by rw [hf, h])
    have hF : ∀ cs : List Call,
        written d m.primary_stream (cs.map (Prod.mk f)) = "" :=
      fun cs => written_map_other d f _ cs hne
    by_cases h1 : admits L m.log_lvl = true <;> by_cases h2 : admits L m.file_lvl = true <;>
    simp [written_append, hP, hF, h1, h2, written_nil]

/-- What `log` puts on the file stream when it is attached and is not the primary
stream. -/
theorem written_log_file (d : Device) (colors : Bool) (L : LogLevel) (args : List Arg)
    (m : Manager) (f : Stream) (hf : m.file_stream = some f) (hne : f ≠ m.primary_stream) :
    ∃ r, log colors L args m = some r ∧
      written d f r.2 =
        if admits L m.file_lvl then
          bytes d (file_line L args (if admits L m.log_lvl then after_line args m else m))
        else "" := by
  refine ⟨_, log_eq colors L args m, ?_⟩
  have hP : ∀ cs : List Call, written d f (cs.map (Prod.mk m.primary_stream)) = "" :=
    fun cs => written_map_other d _ f cs (Ne.symm hne)
  have hF : ∀ cs : List Call, written d f (cs.map (Prod.mk f)) = bytes d cs :=
    fun cs => written_map_same d f cs
  by_cases h1 : admits L m.log_lvl = true <;> by_cases h2 : admits L m.file_lvl = true <;>
  simp [hf, written_append, hP, hF, h1, h2, written_nil]

/-! ## Base and precision after a statement -/

mutual
/-- The base selected by an argument does not depend on the base before, unless the
argument selects none. -/
theorem last_base_const_or_id (a : Arg) :
    (∀ b, a.last_base b = b) ∨ ∃ c, ∀ b, a.last_base b = c := by
  match a with
  | .text _ => exact Or.inl fun _ => rfl
  | .int _ => exact Or.inl fun _ => rfl
  | .flt _ => exact Or.inl fun _ => rfl
  | .prec _ => exact Or.inl fun _ => rfl
  | .base b' => exact Or.inr ⟨b', fun _ => rfl⟩
  | .arr xs =>
    rcases last_base_list_const_or_id xs with h | ⟨c, h⟩
    · exact Or.inl fun b => by simp [Arg.last_base, h]
    · exact Or.inr ⟨c, fun b => by simp [Arg.last_base, h]⟩
  | .map kvs =>
    rcases last_base_pairs_const_or_id kvs with h | ⟨c, h⟩
    · exact Or.inl fun b => by simp [Arg.last_base, h]
    · exact Or.inr ⟨c, fun b => by simp [Arg.last_base, h]⟩
/-- The same for a list of arguments. -/
theorem last_base_list_const_or_id (xs : List Arg) :
    (∀ b, last_base_list xs b = b) ∨ ∃ c, ∀ b, last_base_list xs b = c := by
  match xs with
  | [] => exact Or.inl fun _ => rfl
  | x :: rest =>
    rcases last_base_list_const_or_id rest with h | ⟨c, h⟩
    · rcases last_base_const_or_id x with hx | ⟨c, hx⟩
      · exact Or.inl fun b => by simp [last_base_list, h, hx]
      · exact Or.inr ⟨c, fun b => by simp [last_base_list, h, hx]⟩
    · exact Or.inr ⟨c, fun b => by simp [last_base_list, h]⟩
/-- The same for a list of pairs. -/
theorem last_base_pairs_const_or_id (kvs : List (Arg × Arg)) :
    (∀ b, last_base_pairs kvs b = b) ∨ ∃ c, ∀ b, last_base_pairs kvs b = c := by
  match kvs with
  | [] => exact Or.inl fun _ => rfl
  | (k, v) :: rest =>
    rcases last_base_pairs_const_or_id rest with h | ⟨c, h⟩
    · rcases last_base_const_or_id v with hv | ⟨c, hv⟩
      · rcases last_base_const_or_id k with hk | ⟨c, hk⟩
        · exact Or.inl fun b => by simp [last_base_pairs, h, hv, hk]
        · exact Or.inr ⟨c, fun b => by simp [last_base_pairs, h, hv, hk]⟩
      · exact Or.inr ⟨c, fun b => by simp [last_base_pairs, h, hv]⟩
    · exact Or.inr ⟨c, fun b => by simp [last_base_pairs, h]⟩
end

mutual
/-- The precision selected by an argument does not depend on the precision before, unless
the argument selects none. -/
theorem last_prec_const_or_id (a : Arg) :
    (∀ p, a.last_prec p = p) ∨ ∃ c, ∀ p, a.last_prec p = c := by
  match a with
  | .text _ => exact Or.inl fun _ => rfl
  | .int _ => exact Or.inl fun _ => rfl
  | .flt _ => exact Or.inl fun _ => rfl
  | .base _ => exact Or.inl fun _ => rfl
  | .prec p' => exact Or.inr ⟨p', fun _ => rfl⟩
  | .arr xs =>
    rcases last_prec_list_const_or_id xs with h | ⟨c, h⟩
    · exact Or.inl fun b => by simp [Arg.last_prec, h]
    · exact Or.inr ⟨c, fun b => by simp [Arg.last_prec, h]⟩
  | .map kvs =>
    rcases last_prec_pairs_const_or_id kvs with h | ⟨c, h⟩
    · exact Or.inl fun b => by simp [Arg.last_prec, h]
    · exact Or.inr ⟨c, fun b => by simp [Arg.last_prec, h]⟩
/-- The same for a list of arguments. -/
theorem last_prec_list_const_or_id (xs : List Arg) :
    (∀ p, last_prec_list xs p = p) ∨ ∃ c, ∀ p, last_prec_list xs p = c := by
  match xs with
  | [] => exact Or.inl fun _ => rfl
  | x :: rest =>
    rcases last_prec_list_const_or_id rest with h | ⟨c, h⟩
    · rcases last_prec_const_or_id x with hx | ⟨c, hx⟩
      · exact Or.inl fun b => by simp [last_prec_list, h, hx]
      · exact Or.inr ⟨c, fun b => by simp [last_prec_list, h, hx]⟩
    · exact Or.inr ⟨c, fun b => by simp [last_prec_list, h]⟩
/-- The same for a list of pairs. -/
theorem last_prec_pairs_const_or_id (kvs : List (Arg × Arg)) :
    (∀ p, last_prec_pairs kvs p = p) ∨ ∃ c, ∀ p, last_prec_pairs kvs p = c := by
  match kvs with
  | [] => exact Or.inl fun _ => rfl
  | (k, v) :: rest =>
    rcases last_prec_pairs_const_or_id rest with h | ⟨c, h⟩
    · rcases last_prec_const_or_id v with hv | ⟨c, hv⟩
      · rcases last_prec_const_or_id k with hk | ⟨c, hk⟩
        · exact Or.inl fun b => by simp [last_prec_pairs, h, hv, hk]
        · exact Or.inr ⟨c, fun b => by simp [last_prec_pairs, h, hv, hk]⟩
      · exact Or.inr ⟨c, fun b => by simp [last_prec_pairs, h, hv]⟩
    · exact Or.inr ⟨c, fun b => by simp [last_prec_pairs, h]⟩
end

theorem last_base_list_idem (xs : List Arg) (b : LogBase) :
    last_base_list xs (last_base_list xs b) = last_base_list xs b := by
  rcases last_base_list_const_or_id xs with h | ⟨c, h⟩ <;> simp [h]

theorem last_prec_list_idem (xs : List Arg) (p : LogPrecision) :
    last_prec_list xs (last_prec_list xs p) = last_prec_list xs p := by
  rcases last_prec_list_const_or_id xs with h | ⟨c, h⟩ <;> simp [h]

theorem after_list_log_base (xs : List Arg) (m : Manager) (hr : m.b_base_reset = false) :
    (after_list xs m).log_base = last_base_list xs m.log_base := by
  induction xs generalizing m with
  | nil => rfl
  | cons a rest ih =>
    simp [after_list, ih (a.after m) (by simpa using hr), last_base_list, after_log_base, hr,
      Arg.base_after]

theorem reset_base_of_false (m : Manager) (hr : m.b_base_reset = false) : m.reset_base = m := by
  simp [Manager.reset_base, hr]

theorem after_line_log_base (args : List Arg) (m : Manager) :
    (after_line args m).log_base =
      if m.b_base_reset then .DEC else last_base_list args m.log_base := by
  cases hr : m.b_base_reset
  · simp [after_line, reset_base_log_base, hr, reset_base_of_false m hr,
      after_list_log_base args m hr]
  · simp [after_line, reset_base_log_base, hr]

theorem after_line_log_precision (args : List Arg) (m : Manager) :
    (after_line args m).log_precision = last_prec_list args m.log_precision := by
  simp [after_line, after_list_log_precision]

theorem print_after_log_base (args : List Arg) (m : Manager) :
    ((after_list args m).reset_base).log_base =
      if m.b_base_reset then .DEC else last_base_list args m.log_base := by
  cases hr : m.b_base_reset
  · simp [reset_base_log_base, hr, after_list_log_base args m hr]
  · simp [reset_base_log_base, hr]

/-- The base and the precision after a `log` that writes a line, on the primary stream or
on an attached file stream. -/
theorem log_after_emitting (colors : Bool) (L : LogLevel) (args : List Arg) (m : Manager)
    (hemit : admits L m.log_lvl = true ∨
      (m.file_stream.isSome = true ∧ admits L m.file_lvl = true)) :
    ∃ r, log colors L args m = some r ∧ r.1.b_base_reset = m.b_base_reset ∧
      r.1.log_base = (if m.b_base_reset then .DEC else last_base_list args m.log_base) ∧
      r.1.log_precision = last_prec_list args m.log_precision := by
  refine ⟨_, log_eq colors L args m, ?_, ?_, ?_⟩
  · by_cases h1 : admits L m.log_lvl = true <;>
    by_cases h2 : (m.file_stream.isSome && admits L m.file_lvl) = true <;> simp [h1, h2]
  · by_cases h1 : admits L m.log_lvl = true <;>
    by_cases h2 : (m.file_stream.isSome && admits L m.file_lvl) = true
    · cases hr : m.b_base_reset <;>
      simp [h1, h2, after_line_log_base, hr, last_base_list_idem]
    · simp [h1, h2, after_line_log_base]
    · simp [h1, h2, after_line_log_base]
    · exfalso
      rcases hemit with h | ⟨h, h'⟩
      · exact h1 h
      · exact h2 (by simp [h, h'])
  · by_cases h1 : admits L m.log_lvl = true <;>
    by_cases h2 : (m.file_stream.isSome && admits L m.file_lvl) = true
    · simp [h1, h2, after_line_log_precision, last_prec_list_idem]
    · simp [h1, h2, after_line_log_precision]
    · simp [h1, h2, after_line_log_precision]
    · exfalso
      rcases hemit with h | ⟨h, h'⟩
      · exact h1 h
      · exact h2 (by simp [h, h'])

theorem emits_of_admitted (L : LogLevel) (m : Manager) (hL : L ≠ .LVL_NONE)
    (hemit : L.toNat ≤ m.log_lvl.toNat ∨ (m.file_stream ≠ none ∧ L.toNat ≤ m.file_lvl.toNat)) :
    admits L m.log_lvl = true ∨ (m.file_stream.isSome = true ∧ admits L m.file_lvl = true) := by
  rcases hemit with h | ⟨hf, h⟩
  · exact Or.inl ((admits_iff L m.log_lvl).2 ⟨hL, h⟩)
  · refine Or.inr ⟨?_, (admits_iff L m.file_lvl).2 ⟨hL, h⟩⟩
    cases hs : m.file_stream with
    | none => exact absurd hs hf
    | some f => rfl

theorem after_congr (a : Arg) (m m' : Manager) (hb : m'.log_base = m.log_base)
    (hp : m'.log_precision = m.log_precision) (hr : m'.b_base_reset = m.b_base_reset) :
    (a.after m').log_base = (a.after m).log_base ∧
      (a.after m').log_precision = (a.after m).log_precision ∧
      (a.after m').b_base_reset = (a.after m).b_base_reset := by
  simp [after_log_base, after_log_precision, hb, hp, hr]

theorem pack_calls_congr (sep : String) (args : List Arg) (m m' : Manager)
    (hb : m'.log_base = m.log_base) (hp : m'.log_precision = m.log_precision)
    (hr : m'.b_base_reset = m.b_base_reset) :
    pack_calls sep args m' = pack_calls sep args m := by
  induction args generalizing m m' with
  | nil => rfl
  | cons a rest ih =>
    obtain ⟨e1, e2, e3⟩ := after_congr a m m' hb hp hr
    simp [pack_calls, calls_congr a m m' hb hp hr, ih (a.after m) (a.after m') e1 e2 e3]

theorem renderings_congr (d : Device) (args : List Arg) (m m' : Manager)
    (hb : m'.log_base = m.log_base) (hp : m'.log_precision = m.log_precision)
    (hr : m'.b_base_reset = m.b_base_reset) :
    renderings d args m' = renderings d args m := by
  induction args generalizing m m' with
  | nil => rfl
  | cons a rest ih =>
    obtain ⟨e1, e2, e3⟩ := after_congr a m m' hb hp hr
    simp [renderings, calls_congr a m m' hb hp hr, ih (a.after m) (a.after m') e1 e2 e3]

theorem after_list_append (xs ys : List Arg) (m : Manager) :
    after_list (xs ++ ys) m = after_list ys (after_list xs m) := by
  induction xs generalizing m with
  | nil => rfl
  | cons a rest ih => simp [after_list, ih]

theorem pack_calls_cons (sep : String) (a : Arg) (rest : List Arg) (m : Manager) :
    pack_calls sep (a :: rest) m =
      a.calls m ++ (if rest.length ≠ 0 then [Call.print sep] else []) ++
        pack_calls sep rest (a.after m) := rfl

theorem after_list_cons (a : Arg) (rest : List Arg) (m : Manager) :
    after_list (a :: rest) m = after_list rest (a.after m) := rfl

theorem pack_calls_append (sep : String) (xs : List Arg) (y : Arg) (ys : List Arg)
    (m : Manager) :
    pack_calls sep (xs ++ y :: ys) m =
      pack_calls sep xs m ++ (if xs.length ≠ 0 then [Call.print sep] else []) ++
        pack_calls sep (y :: ys) (after_list xs m) := by
  induction xs generalizing m with
  | nil => simp [pack_calls, after_list]
  | cons a rest ih =>
    rw [List.cons_append, pack_calls_cons sep a (rest ++ y :: ys) m, ih (a.after m),
      pack_calls_cons sep a rest m, after_list_cons]
    generalize pack_calls sep (y :: ys) (after_list rest (a.after m)) = T
    cases rest <;> simp [pack_calls]

/-! ## Arguments without a base selector -/

mutual
/-- An argument without a base selector leaves every base as it is. -/
theorem no_base_last_base (a : Arg) (h : a.has_base = false) (b : LogBase) :
    a.last_base b = b := by
  match a with
  | .text _ => rfl
  | .int _ => rfl
  | .flt _ => rfl
  | .prec _ => rfl
  | .base _ => simp [Arg.has_base] at h
  | .arr xs =>
    simp only [Arg.has_base] at h
    simp [Arg.last_base, no_base_last_base_list xs h b]
  | .map kvs =>
    simp only [Arg.has_base] at h
    simp [Arg.last_base, no_base_last_base_pairs kvs h b]
/-- The same for a list of arguments. -/
theorem no_base_last_base_list (xs : List Arg) (h : has_base_list xs = false) (b : LogBase) :
    last_base_list xs b = b := by
  match xs with
  | [] => rfl
  | x :: rest =>
    simp only [has_base_list, Bool.or_eq_false_iff] at h
    simp [last_base_list, no_base_last_base x h.1 b, no_base_last_base_list rest h.2 b]
/-- The same for a list of pairs. -/
theorem no_base_last_base_pairs (kvs : List (Arg × Arg)) (h : has_base_pairs kvs = false)
    (b : LogBase) : last_base_pairs kvs b = b := by
  match kvs with
  | [] => rfl
  | (k, v) :: rest =>
    simp only [has_base_pairs, Bool.or_eq_false_iff] at h
    simp [last_base_pairs, no_base_last_base k h.1.1 b, no_base_last_base v h.1.2 b,
      no_base_last_base_pairs rest h.2 b]
end

theorem no_base_after_log_base (a : Arg) (m : Manager) (hr : m.b_base_reset = false)
    (h : a.has_base = false) : (a.after m).log_base = m.log_base := by
  simp [after_log_base, Arg.base_after, hr, no_base_last_base a h]

mutual
/-- With `b_base_reset` clear, an argument without a base selector hands every integer to
the stream with the base in force. -/
theorem no_base_calls (a : Arg) (m : Manager) (hr : m.b_base_reset = false)
    (h : a.has_base = false) : ∀ c ∈ a.calls m, c.off_base m.log_base = false := by
  match a with
  | .text _ => intro c hc; simp [calls_text] at hc; simp [hc, Call.off_base]
  | .int _ => intro c hc; simp [calls_int] at hc; simp [hc, Call.off_base]
  | .flt _ => intro c hc; simp [calls_flt] at hc; simp [hc, Call.off_base]
  | .prec _ => intro c hc; simp [calls_prec] at hc
  | .base _ => simp [Arg.has_base] at h
  | .arr xs =>
    simp only [Arg.has_base] at h
    intro c hc
    rw [calls_arr] at hc
    simp only [List.mem_append, List.mem_singleton] at hc
    rcases hc with (hc | hc) | hc
    · simp [hc, Call.off_base]
    · exact no_base_pack_calls ", " xs { m with b_base_reset := false } rfl h c hc
    · simp [hc, Call.off_base]
  | .map kvs =>
    simp only [Arg.has_base] at h
    intro c hc
    rw [calls_map] at hc
    simp only [List.mem_append, List.mem_singleton] at hc
    rcases hc with (hc | hc) | hc
    · simp [hc, Call.off_base]
    · exact no_base_pair_calls kvs m hr h c hc
    · simp [hc, Call.off_base]
/-- The same for the calls of a pack. -/
theorem no_base_pack_calls (sep : String) (xs : List Arg) (m : Manager)
    (hr : m.b_base_reset = false) (h : has_base_list xs = false) :
    ∀ c ∈ pack_calls sep xs m, c.off_base m.log_base = false := by
  match xs with
  | [] => intro c hc; simp [pack_calls] at hc
  | x :: rest =>
    simp only [has_base_list, Bool.or_eq_false_iff] at h
    intro c hc
    rw [pack_calls_cons] at hc
    simp only [List.mem_append] at hc
    rcases hc with (hc | hc) | hc
    · exact no_base_calls x m hr h.1 c hc
    · split at hc
      · simp at hc; simp [hc, Call.off_base]
      · simp at hc
    · have := no_base_pack_calls sep rest (x.after m) (by simpa using hr) h.2 c hc
      rwa [no_base_after_log_base x m hr h.1] at this
/-- The same for the calls of the pairs of a mapping. -/
theorem no_base_pair_calls (kvs : List (Arg × Arg)) (m : Manager)
    (hr : m.b_base_reset = false) (h : has_base_pairs kvs = false) :
    ∀ c ∈ pair_calls kvs m, c.off_base m.log_base = false := by
  match kvs with
  | [] => intro c hc; simp [pair_calls] at hc
  | (k, v) :: rest =>
    simp only [has_base_pairs, Bool.or_eq_false_iff] at h
    have hk := no_base_after_log_base k m hr h.1.1
    have hr1 : (k.after m).b_base_reset = false := by simpa using hr
    have hv := no_base_after_log_base v (k.after m) hr1 h.1.2
    have hr2 : (v.after (k.after m)).b_base_reset = false := by simpa using hr
    intro c hc
    simp only [pair_calls, List.mem_append, List.mem_singleton] at hc
    rcases hc with (((hc | hc) | hc) | hc) | hc
    · exact no_base_calls k m hr h.1.1 c hc
    · simp [hc, Call.off_base]
    · have := no_base_calls v (k.after m) hr1 h.1.2 c hc
      rwa [hk] at this
    · split at hc
      · simp at hc; simp [hc, Call.off_base]
      · simp at hc
    · have := no_base_pair_calls rest (v.after (k.after m)) hr2 h.2 c hc
      rwa [hv, hk] at this
end

theorem renderings_maps (d : Device) (ms : List (List (Arg × Arg))) (m : Manager) :
    renderings d (ms.map Arg.map) m = map_renderings d ms m := by
  induction ms generalizing m with
  | nil => rfl
  | cons kvs rest ih =>
    simp [renderings, map_renderings, ih, calls_map, bytes_append, bytes, Call.bytes,
      bytes_pair_calls, String.append_assoc]

theorem print_calls_on (args : List Arg) (m : Manager) :
    (print args m).map (fun r => calls_on m.primary_stream r.2) =
      some (pack_calls m.delim args m) := by
  rw [print_eq]
  simp only [Option.map_some', calls_on_map_same]

theorem println_calls_on (args : List Arg) (m : Manager) :
    (println args m).map (fun r => calls_on m.primary_stream r.2) =
      some (pack_calls m.delim args m ++ [Call.print "\n"]) := by
  rw [println_eq]
  simp only [Option.map_some', calls_on_map_same]

/-! ## The calls of `log` on each stream -/

/-- The calls that `log` makes on the primary stream when the file stream is another
stream or is not attached. -/
theorem calls_on_log_primary (colors : Bool) (L : LogLevel) (args : List Arg) (m : Manager)
    (hdist : m.file_stream ≠ some m.primary_stream) :
    ∃ r, log colors L args m = some r ∧
      calls_on m.primary_stream r.2 =
        if admits L m.log_lvl then primary_line colors L args m else [] := by
  refine ⟨_, log_eq colors L args m, ?_⟩
  cases hf : m.file_stream with
  | none =>
    by_cases h1 : admits L m.log_lvl = true
    · simp only [calls_on_append, calls_on_map_same, h1, if_true, List.append_nil]
    · simp only [h1, if_false, List.append_nil, Bool.false_eq_true]
      rfl
  | some f =>
    have hne : f ≠ m.primary_stream := fun h => hdist (by rw [hf, h])
    have hF : ∀ cs : List Call, calls_on m.primary_stream (cs.map (Prod.mk f)) = [] :=
      fun cs => calls_on_map_other f _ cs hne
    by_cases h1 : admits L m.log_lvl = true <;> by_cases h2 : admits L m.file_lvl = true <;>
    simp only [calls_on_append, calls_on_map_same, hF, h1, h2, if_true, if_false,
      List.append_nil, Bool.false_eq_true] <;> rfl

/-- The calls that `log` makes on the file stream when it is attached and is not the
primary stream. -/
theorem calls_on_log_file (colors : Bool) (L : LogLevel) (args : List Arg) (m : Manager)
    (f : Stream) (hf : m.file_stream = some f) (hne : f ≠ m.primary_stream) :
    ∃ r, log colors L args m = some r ∧
      calls_on f r.2 =
        if admits L m.file_lvl then
          file_line L args (if admits L m.log_lvl then after_line args m else m)
        else [] := by
  refine ⟨_, log_eq colors L args m, ?_⟩
  have hP : ∀ cs : List Call, calls_on f (cs.map (Prod.mk m.primary_stream)) = [] :=
    fun cs => calls_on_map_other _ f cs (Ne.symm hne)
  by_cases h1 : admits L m.log_lvl = true <;> by_cases h2 : admits L m.file_lvl = true <;>
  simp only [hf, calls_on_append, calls_on_map_same, hP, h1, h2, if_true, if_false,
    List.nil_append, Bool.false_eq_true] <;> rfl

mutual
/-- The overloads of `print_one` never call `flush`. -/
theorem flush_not_mem_calls (a : Arg) (m : Manager) : Call.flush ∉ a.calls m := by
  match a with
  | .text _ => simp [calls_text]
  | .int _ => simp [calls_int]
  | .flt _ => simp [calls_flt]
  | .prec _ => simp [calls_prec]
  | .base _ => simp [calls_base]
  | .arr xs =>
    rw [calls_arr]
    simp [flush_not_mem_pack_calls ", " xs { m with b_base_reset := false }]
  | .map kvs =>
    rw [calls_map]
    simp [flush_not_mem_pair_calls kvs m]
/-- The calls of a pack hold no `flush`. -/
theorem flush_not_mem_pack_calls (sep : String) (xs : List Arg) (m : Manager) :
    Call.flush ∉ pack_calls sep xs m := by
  match xs with
  | [] => simp [pack_calls]
  | x :: rest =>
    rw [pack_calls_cons]
    by_cases hl : rest.length ≠ 0 <;>
    simp [hl, flush_not_mem_calls x m, flush_not_mem_pack_calls sep rest (x.after m)]
/-- The calls of the pairs of a mapping hold no `flush`. -/
theorem flush_not_mem_pair_calls (kvs : List (Arg × Arg)) (m : Manager) :
    Call.flush ∉ pair_calls kvs m := by
  match kvs with
  | [] => simp [pair_calls]
  | (k, v) :: rest =>
    by_cases hl : rest.length ≠ 0 <;>
    simp [pair_calls, hl, flush_not_mem_calls k m, flush_not_mem_calls v (k.after m),
      flush_not_mem_pair_calls rest (v.after (k.after m))]
end

theorem renderings_reset_congr (d : Device) (args : List Arg) (S m : Manager)
    (hr : S.b_base_reset = m.b_base_reset) (hp : S.log_precision = m.log_precision)
    (hb : m.b_base_reset = false → S.log_base = m.log_base) :
    renderings d args S.reset_base = renderings d args m.reset_base := by
  apply renderings_congr
  · rw [reset_base_log_base, reset_base_log_base, hr]
    cases hr0 : m.b_base_reset
    · simp [hb hr0]
    · simp
  · simpa using hp
  · simpa using hr

theorem pack_calls_reset_congr (sep : String) (args : List Arg) (S m : Manager)
    (hr : S.b_base_reset = m.b_base_reset) (hp : S.log_precision = m.log_precision)
    (hb : m.b_base_reset = false → S.log_base = m.log_base) :
    pack_calls sep args S.reset_base = pack_calls sep args m.reset_base := by
  apply pack_calls_congr
  · rw [reset_base_log_base, reset_base_log_base, hr]
    cases hr0 : m.b_base_reset
    · simp [hb hr0]
    · simp
  · simpa using hp
  · simpa using hr

/-! ## The claims -/

/-- Claim C1: for every level `L`, every threshold configuration and every argument list,
`log(L, args)` puts at least one byte on the primary stream iff `L != NONE` and
`L <= log_lvl`, and at least one byte on an attached file stream iff `L != NONE` and
`L <= file_lvl`; it makes no call at all when `L` is `NONE` or both thresholds are `NONE`.
The file stream, when attached, is another stream than the primary one.  The build
without `ARDUINO` has the primary stream only. -/
theorem C1_log_emits_iff_admitted (d : Device) (colors : Bool) (L : LogLevel)
    (args : List Arg) (m : Manager) (hdist : m.file_stream ≠ some m.primary_stream)
    (hargs : List Hosted.Arg) (hm : Hosted.Manager) :
    (∃ r, log colors L args m = some r ∧
      (0 < (written d m.primary_stream r.2).length ↔
        (L ≠ .LVL_NONE ∧ L.toNat ≤ m.log_lvl.toNat)) ∧
      (∀ f, m.file_stream = some f →
        (0 < (written d f r.2).length ↔ (L ≠ .LVL_NONE ∧ L.toNat ≤ m.file_lvl.toNat))) ∧
      (L = .LVL_NONE ∨ (m.log_lvl = .LVL_NONE ∧ m.file_lvl = .LVL_NONE) → r.2 = [])) ∧
    (0 < (bytes d (Hosted.log colors L hargs hm).2).length ↔
      (L ≠ .LVL_NONE ∧ L.toNat ≤ hm.log_lvl.toNat)) := by
  constructor
  · obtain ⟨r, hr, hw⟩ := written_log_primary d colors L args m hdist
    refine ⟨r, hr, ?_, ?_, ?_⟩
    · rw [hw, ← admits_iff]
      by_cases h1 : admits L m.log_lvl = true
      · simp [h1, bytes_primary_line_pos]
      · simp [h1]
    · intro f hf
      have hne : f ≠ m.primary_stream := fun h => hdist (by rw [hf, h])
      obtain ⟨r', hr', hw'⟩ := written_log_file d colors L args m f hf hne
      have e : r' = r := Option.some.inj (hr'.symm.trans hr)
      subst e
      rw [hw', ← admits_iff]
      by_cases h2 : admits L m.file_lvl = true
      · simp [h2, bytes_file_line_pos]
      · simp [h2]
    · intro h
      have e := log_eq colors L args m
      have a1 : admits L m.log_lvl = false := by
        rcases h with h | ⟨h, _⟩
        · rw [h, admits_none_left]
        · rw [h, admits_none_right]
      have a2 : admits L m.file_lvl = false := by
        rcases h with h | ⟨_, h⟩
        · rw [h, admits_none_left]
        · rw [h, admits_none_right]
      rw [hr] at e
      have e2 := (Prod.mk.inj (Option.some.inj e)).2
      rw [e2]
      cases hf : m.file_stream <;> simp [a1, a2]
  · rw [Hosted.hosted_log_eq, ← admits_iff]
    by_cases h1 : admits L hm.log_lvl = true
    · simp only [h1, if_true, iff_true]
      rw [Hosted.bytes_log_primary, String.length_append, newline_length]
      omega
    · simp [h1, bytes]

/-- An instance of C1: a level `INFO` line on a manager with thresholds `INFO` (primary)
and `ERROR` (file) reaches the primary stream and not the file stream. -/
theorem C1_log_emits_iff_admitted_witness :
    (attach_file_stream ⟨1⟩ false (Manager.init .LVL_INFO .LVL_ERROR)).file_stream ≠
        some (attach_file_stream ⟨1⟩ false (Manager.init .LVL_INFO .LVL_ERROR)).primary_stream ∧
      ∃ r, log false .LVL_INFO [.text "a"]
          (attach_file_stream ⟨1⟩ false (Manager.init .LVL_INFO .LVL_ERROR)) = some r ∧
        0 < (written Device.digits Serial r.2).length ∧
        ¬ 0 < (written Device.digits ⟨1⟩ r.2).length := by
  refine ⟨by decide, ?_⟩
  obtain ⟨⟨r, hr, hp, hf, _⟩, _⟩ := C1_log_emits_iff_admitted Device.digits false .LVL_INFO
    [.text "a"] (attach_file_stream ⟨1⟩ false (Manager.init .LVL_INFO .LVL_ERROR))
    (by decide) [] ⟨.LVL_INFO, .DEC, " ", true⟩
  refine ⟨r, hr, hp.2 (by decide), ?_⟩
  intro h
  have := ((hf ⟨1⟩ rfl).1 h).2
  revert this
  decide

/-- Claim C2: without colors, for a level `L` that the primary threshold admits,
`log(L, a1..an)` puts on the primary stream exactly the header of `L`, the renderings of
the arguments joined by the delimiter (none after the last) and a newline;
`log(INFO, "a", "b", "c")` with delimiter `" "` writes `"[INFO] a b c\n"`.  The arguments
are rendered from the manager that `print(header)` leaves (`m.reset_base`).  The file
stream, when attached, is another stream than the primary one.  The same holds on
`std::cout` in the build without `ARDUINO`. -/
theorem C2_log_line_without_colors (d : Device) (L : LogLevel) (args : List Arg)
    (m : Manager) (hdist : m.file_stream ≠ some m.primary_stream) (hL : L ≠ .LVL_NONE)
    (hle : L.toNat ≤ m.log_lvl.toNat)
    (hargs : List Hosted.Arg) (hm : Hosted.Manager) (hle' : L.toNat ≤ hm.log_lvl.toNat) :
    (∃ r, log false L args m = some r ∧
      written d m.primary_stream r.2 =
        generate_header L ++ String.intercalate m.delim (renderings d args m.reset_base) ++
          "\n" ∧
      (L = .LVL_INFO → m.delim = " " → args = [.text "a", .text "b", .text "c"] →
        written d m.primary_stream r.2 = "[INFO] a b c\n")) ∧
    bytes d (Hosted.log false L hargs hm).2 =
      generate_header L ++
        String.intercalate hm.delim (hargs.map (Hosted.rendering d hm.reset_base)) ++ "\n" := by
  have ha : admits L m.log_lvl = true := (admits_iff L m.log_lvl).2 ⟨hL, hle⟩
  have ha' : admits L hm.log_lvl = true := (admits_iff L hm.log_lvl).2 ⟨hL, hle'⟩
  constructor
  · obtain ⟨r, hr, hw⟩ := written_log_primary d false L args m hdist
    have hw' : written d m.primary_stream r.2 =
        generate_header L ++ String.intercalate m.delim (renderings d args m.reset_base) ++
          "\n" := by
      rw [hw, if_pos ha, bytes_primary_line]
      simp
    refine ⟨r, hr, hw', ?_⟩
    intro h1 h2 h3
    rw [hw', h1, h2, h3]
    simp [renderings, calls_text, after_text, bytes, Call.bytes, generate_header,
      intercalate_cons_cons, intercalate_single]
  · rw [Hosted.hosted_log_eq, if_pos ha', Hosted.bytes_log_primary]
    simp

/-- An instance of C2: `log(INFO, "a", "b", "c")` on the initial manager. -/
theorem C2_log_line_without_colors_witness :
    (Manager.init .LVL_INFO .LVL_ERROR).file_stream ≠
        some (Manager.init .LVL_INFO .LVL_ERROR).primary_stream ∧
      LogLevel.LVL_INFO ≠ LogLevel.LVL_NONE ∧
      LogLevel.LVL_INFO.toNat ≤ (Manager.init .LVL_INFO .LVL_ERROR).log_lvl.toNat ∧
      ∃ r, log false .LVL_INFO [.text "a", .text "b", .text "c"]
          (Manager.init .LVL_INFO .LVL_ERROR) = some r ∧
        written Device.digits Serial r.2 = "[INFO] a b c\n" := by
  refine ⟨by decide, by decide, by decide, ?_⟩
  obtain ⟨⟨r, hr, _, hex⟩, _⟩ := C2_log_line_without_colors Device.digits .LVL_INFO
    [.text "a", .text "b", .text "c"] (Manager.init .LVL_INFO .LVL_ERROR)
    (by decide) (by decide) (by decide) [] ⟨.LVL_INFO, .DEC, " ", true⟩ (by decide)
  exact ⟨r, hr, hex rfl rfl rfl⟩

/-- Claim C3: for every threshold configuration and every argument list, `print(args)`
and `println(args)` put on the primary stream the renderings of the arguments joined by
the delimiter, with no header and no color tag, make no call on any other stream (so none
on the file stream), and what `println` writes is what `print` writes followed by one
newline.  The same holds on `std::cout` in the build without `ARDUINO`. -/
theorem C3_print_println_primary_only (d : Device) (args : List Arg) (m : Manager)
    (h : Stream) (hne : h ≠ m.primary_stream)
    (hargs : List Hosted.Arg) (hm : Hosted.Manager) :
    (∃ r r', print args m = some r ∧ println args m = some r' ∧
      written d m.primary_stream r.2 = String.intercalate m.delim (renderings d args m) ∧
      written d m.primary_stream r'.2 = written d m.primary_stream r.2 ++ "\n" ∧
      calls_on h r.2 = [] ∧ calls_on h r'.2 = []) ∧
    (bytes d (Hosted.print hargs hm).2 =
        String.intercalate hm.delim (hargs.map (Hosted.rendering d hm)) ∧
      bytes d (Hosted.println hargs hm).2 = bytes d (Hosted.print hargs hm).2 ++ "\n") := by
  constructor
  · refine ⟨_, _, print_eq args m, println_eq args m, ?_, ?_, ?_, ?_⟩
    · rw [written_map_same, bytes_pack_calls]
    · rw [written_map_same, written_map_same, bytes_append]
      simp [bytes, Call.bytes]
    · exact calls_on_map_other _ _ _ (Ne.symm hne)
    · exact calls_on_map_other _ _ _ (Ne.symm hne)
  · rw [Hosted.bytes_print, Hosted.bytes_println]
    exact ⟨rfl, rfl⟩

/-- An instance of C3: `print("x", 7)` and `println("x", 7)` with both thresholds `NONE`
and a file stream attached. -/
theorem C3_print_println_primary_only_witness :
    (⟨1⟩ : Stream) ≠
        (attach_file_stream ⟨1⟩ true (Manager.init .LVL_NONE .LVL_NONE)).primary_stream ∧
      ∃ r r', print [.text "x", .int 7]
          (attach_file_stream ⟨1⟩ true (Manager.init .LVL_NONE .LVL_NONE)) = some r ∧
        println [.text "x", .int 7]
          (attach_file_stream ⟨1⟩ true (Manager.init .LVL_NONE .LVL_NONE)) = some r' ∧
        written Device.digits Serial r.2 = "x 7" ∧
        written Device.digits Serial r'.2 = "x 7\n" ∧
        calls_on ⟨1⟩ r.2 = [] ∧ calls_on ⟨1⟩ r'.2 = [] := by
  refine ⟨by decide, ?_⟩
  obtain ⟨⟨r, r', h1, h2, h3, h4, h5, h6⟩, _⟩ := C3_print_println_primary_only Device.digits
    [.text "x", .int 7] (attach_file_stream ⟨1⟩ true (Manager.init .LVL_NONE .LVL_NONE))
    ⟨1⟩ (by decide) [] ⟨.LVL_NONE, .DEC, " ", true⟩
  have e : written Device.digits Serial r.2 = "x 7" := by
    rw [show Serial = (attach_file_stream ⟨1⟩ true
      (Manager.init .LVL_NONE .LVL_NONE)).primary_stream from rfl, h3]
    decide
  refine ⟨r, r', h1, h2, e, ?_, h5, h6⟩
  rw [show Serial = (attach_file_stream ⟨1⟩ true
    (Manager.init .LVL_NONE .LVL_NONE)).primary_stream from rfl, h4, h3]
  decide

/-- Claim C4: for every sequence container with elements `e0..en`, whatever the delimiter
of the manager, `print_array` writes `"["`, the renderings of the elements in index order
joined by `", "`, and `"]"`; the empty sequence is written as `"[]"`.  In the `ARDUINO`
build the elements are rendered with `b_base_reset` cleared.  The same holds on
`std::cout` in the build without `ARDUINO`. -/
theorem C4_sequence_rendering (d : Device) (xs : List Arg) (h : Stream) (m : Manager)
    (hxs : List Hosted.Arg) (hm : Hosted.Manager) :
    (∃ r, print_array xs (some h) m = some r ∧
      written d h r.2 =
        "[" ++ String.intercalate ", " (renderings d xs { m with b_base_reset := false }) ++
          "]") ∧
    (∃ r, print_array [] (some h) m = some r ∧ written d h r.2 = "[]") ∧
    bytes d (Hosted.print_array hxs hm).2 =
      "[" ++ String.intercalate ", " (hxs.map (Hosted.rendering d hm)) ++ "]" ∧
    bytes d (Hosted.print_array [] hm).2 = "[]" := by
  have key : ∀ ys : List Arg, ∃ r, print_array ys (some h) m = some r ∧
      written d h r.2 =
        "[" ++ String.intercalate ", " (renderings d ys { m with b_base_reset := false }) ++
          "]" := by
    intro ys
    refine ⟨_, (print_array_eq_print_one ys (some h) m).trans (print_one_eq (.arr ys) h m), ?_⟩
    rw [written_map_same, calls_arr]
    simp [bytes_append, bytes, Call.bytes, bytes_pack_calls, String.append_assoc]
  have hkey : ∀ ys : List Hosted.Arg, bytes d (Hosted.print_array ys hm).2 =
      "[" ++ String.intercalate ", " (ys.map (Hosted.rendering d hm)) ++ "]" := by
    intro ys
    simp [Hosted.print_array, Hosted.print_one, Hosted.print_one_generic, bytes_append, bytes,
      Call.bytes, Hosted.bytes_print_array_loop, String.append_assoc]
  refine ⟨key xs, ?_, hkey hxs, ?_⟩
  · obtain ⟨r, hr, hw⟩ := key []
    exact ⟨r, hr, by rw [hw]; rfl⟩
  · rw [hkey []]
    rfl

/-- Claim C5: for every mapping with pairs `(k0,v0)..(kn,vn)` in iteration order,
`print_map` writes an opening brace, for each pair the rendering of the key, a colon and
the rendering of the value, the pairs joined by `", "`, and a closing brace; the empty
mapping is written as the two braces, and the mapping of `"a"` to `1` and `"b"` to `2` as
`a:1, b:2` between braces (on a stream that prints `1` and `2` as those digits).  The same
holds on `std::cout` in the build without `ARDUINO`. -/
theorem C5_mapping_rendering (d : Device) (kvs : List (Arg × Arg)) (h : Stream) (m : Manager)
    (hkvs : List (Hosted.Arg × Hosted.Arg)) (hm : Hosted.Manager)
    (h1 : d.print_int 1 m.log_base.toNat = "1") (h2 : d.print_int 2 m.log_base.toNat = "2")
    (h1' : d.print_int 1 hm.log_base.toNat = "1")
    (h2' : d.print_int 2 hm.log_base.toNat = "2") :
    (∃ r, print_map kvs (some h) m = some r ∧
      written d h r.2 =
        "\x7b" ++ String.intercalate ", " (pair_renderings d kvs m) ++ "\x7d") ∧
    (∃ r, print_map [] (some h) m = some r ∧ written d h r.2 = "\x7b\x7d") ∧
    (∃ r, print_map [(.text "a", .int 1), (.text "b", .int 2)] (some h) m = some r ∧
      written d h r.2 = "\x7ba:1, b:2\x7d") ∧
    bytes d (Hosted.print_map hkvs hm).2 =
      "\x7b" ++ String.intercalate ", " (hkvs.map (Hosted.pair_rendering d hm)) ++ "\x7d" ∧
    bytes d (Hosted.print_map [] hm).2 = "\x7b\x7d" ∧
    bytes d (Hosted.print_map [(.text "a", .int 1), (.text "b", .int 2)] hm).2 =
      "\x7ba:1, b:2\x7d" := by
  have key : ∀ ys : List (Arg × Arg), ∃ r, print_map ys (some h) m = some r ∧
      written d h r.2 =
        "\x7b" ++ String.intercalate ", " (pair_renderings d ys m) ++ "\x7d" := by
    intro ys
    refine ⟨_, (print_map_eq_print_one ys (some h) m).trans (print_one_eq (.map ys) h m), ?_⟩
    rw [written_map_same, calls_map]
    simp [bytes_append, bytes, Call.bytes, bytes_pair_calls, String.append_assoc]
  have hkey : ∀ ys : List (Hosted.Arg × Hosted.Arg), bytes d (Hosted.print_map ys hm).2 =
      "\x7b" ++ String.intercalate ", " (ys.map (Hosted.pair_rendering d hm)) ++ "\x7d" := by
    intro ys
    simp [Hosted.print_map, Hosted.print_one, Hosted.print_one_generic, bytes_append, bytes,
      Call.bytes, Hosted.bytes_print_map_loop, String.append_assoc]
  refine ⟨key kvs, ?_, ?_, hkey hkvs, ?_, ?_⟩
  · obtain ⟨r, hr, hw⟩ := key []
    exact ⟨r, hr, by rw [hw]; rfl⟩
  · obtain ⟨r, hr, hw⟩ := key [(.text "a", .int 1), (.text "b", .int 2)]
    refine ⟨r, hr, ?_⟩
    rw [hw]
    simp [pair_renderings, calls_text, after_text, calls_int, after_int, bytes, Call.bytes,
      h1, h2, intercalate_cons_cons, intercalate_single]
  · rw [hkey []]
    rfl
  · rw [hkey]
    simp [Hosted.pair_rendering, Hosted.rendering, Hosted.print_one,
      Hosted.print_one_generic, bytes, Call.bytes, h1', h2', intercalate_cons_cons,
      intercalate_single]

/-- An instance of C5: the mapping of `"a"` to `1` and `"b"` to `2`, on the initial
manager and on a stream that prints integers as their digits. -/
theorem C5_mapping_rendering_witness :
    Device.digits.print_int 1 (Manager.init .LVL_INFO .LVL_ERROR).log_base.toNat = "1" ∧
      Device.digits.print_int 2 (Manager.init .LVL_INFO .LVL_ERROR).log_base.toNat = "2" ∧
      ∃ r, print_map [(.text "a", .int 1), (.text "b", .int 2)] (some Serial)
          (Manager.init .LVL_INFO .LVL_ERROR) = some r ∧
        written Device.digits Serial r.2 = "\x7ba:1, b:2\x7d" := by
  refine ⟨by decide, by decide, ?_⟩
  exact (C5_mapping_rendering Device.digits [] Serial (Manager.init .LVL_INFO .LVL_ERROR)
    [] ⟨.LVL_INFO, .DEC, " ", true⟩ (by decide) (by decide) (by decide) (by decide)).2.2.1

/-- Claim C6: the sequence of the integers 1, 2, 255 rendered while the base is `HEX` is
written as `[1, 2, ff]` (on a stream that prints these numbers in base 16 as `1`, `2`,
`ff`); and after every `print`, `println` and `log` that writes a line, the base is `DEC`
when `b_base_reset` is set, and is the base that the statement selected last (the base
before it, when it selected none) when `b_base_reset` is clear, and a next call
`print(n)` renders `n` in that base. -/
theorem C6_base_after_statement (d : Device) (h : Stream) (mh : Manager) (args : List Arg)
    (colors : Bool) (L : LogLevel) (m : Manager) (n : Int)
    (hhex : mh.log_base = .HEX) (h1 : d.print_int 1 16 = "1") (h2 : d.print_int 2 16 = "2")
    (h255 : d.print_int 255 16 = "ff")
    (hL : L ≠ .LVL_NONE)
    (hemit : L.toNat ≤ m.log_lvl.toNat ∨ (m.file_stream ≠ none ∧ L.toNat ≤ m.file_lvl.toNat)) :
    (∃ r, print_array [.int 1, .int 2, .int 255] (some h) mh = some r ∧
      written d h r.2 = "[1, 2, ff]") ∧
    (∃ r, print args m = some r ∧ r.1.b_base_reset = m.b_base_reset ∧
      r.1.log_base = (if m.b_base_reset then .DEC else last_base_list args m.log_base) ∧
      ∃ r', print [.int n] r.1 = some r' ∧
        r'.2 = [(m.primary_stream, Call.print_base n r.1.log_base.toNat)]) ∧
    (∃ r, println args m = some r ∧ r.1.b_base_reset = m.b_base_reset ∧
      r.1.log_base = (if m.b_base_reset then .DEC else last_base_list args m.log_base) ∧
      ∃ r', print [.int n] r.1 = some r' ∧
        r'.2 = [(m.primary_stream, Call.print_base n r.1.log_base.toNat)]) ∧
    (∃ r, log colors L args m = some r ∧ r.1.b_base_reset = m.b_base_reset ∧
      r.1.log_base = (if m.b_base_reset then .DEC else last_base_list args m.log_base) ∧
      ∃ r', print [.int n] r.1 = some r' ∧
        r'.2 = [(r.1.primary_stream, Call.print_base n r.1.log_base.toNat)]) := by
  have next : ∀ m' : Manager, ∃ r', print [.int n] m' = some r' ∧
      r'.2 = [(m'.primary_stream, Call.print_base n m'.log_base.toNat)] := by
    intro m'
    refine ⟨_, print_eq [.int n] m', ?_⟩
    simp [pack_calls, calls_int]
  refine ⟨?_, ?_, ?_, ?_⟩
  · refine ⟨_, (print_array_eq_print_one _ (some h) mh).trans (print_one_eq _ h mh), ?_⟩
    rw [written_map_same, calls_arr]
    simp [pack_calls, calls_int, after_int, bytes, Call.bytes, hhex, LogBase.toNat, h1, h2,
      h255]
  · refine ⟨_, print_eq args m, by simp, print_after_log_base args m, ?_⟩
    simpa using next ((after_list args m).reset_base)
  · refine ⟨_, println_eq args m, by simp, print_after_log_base args m, ?_⟩
    simpa using next ((after_list args m).reset_base)
  · obtain ⟨r, hr, hb, hbase, _⟩ := log_after_emitting colors L args m
      (emits_of_admitted L m hL hemit)
    exact ⟨r, hr, hb, hbase, next r.1⟩

/-- An instance of C6: with `b_base_reset` clear, `print(HEX)` leaves the base `HEX` and
a next `print(255)` hands 255 to the stream with base 16. -/
theorem C6_base_after_statement_witness :
    ((Manager.init .LVL_INFO .LVL_ERROR).set_fmt .HEX .TWO).log_base = LogBase.HEX ∧
      Device.digits.print_int 1 16 = "1" ∧ Device.digits.print_int 2 16 = "2" ∧
      Device.digits.print_int 255 16 = "ff" ∧
      LogLevel.LVL_INFO ≠ LogLevel.LVL_NONE ∧
      LogLevel.LVL_INFO.toNat ≤
        (base_reset false (Manager.init .LVL_INFO .LVL_ERROR)).log_lvl.toNat ∧
      ∃ r, print [.base .HEX] (base_reset false (Manager.init .LVL_INFO .LVL_ERROR)) = some r ∧
        r.1.log_base = LogBase.HEX ∧
        ∃ r', print [.int 255] r.1 = some r' ∧ r'.2 = [(Serial, Call.print_base 255 16)] := by
  refine ⟨by decide, by decide, by decide, by decide, by decide, by decide, ?_⟩
  obtain ⟨_, ⟨r, hr, _, hb, r', hr', ho⟩, _⟩ := C6_base_after_statement Device.digits Serial
    ((Manager.init .LVL_INFO .LVL_ERROR).set_fmt .HEX .TWO) [.base .HEX] false .LVL_INFO
    (base_reset false (Manager.init .LVL_INFO .LVL_ERROR)) 255 rfl (by decide) (by decide)
    (by decide) (by decide) (Or.inl (by decide))
  have hb' : r.1.log_base = LogBase.HEX := by rw [hb]; decide
  refine ⟨r, hr, hb', r', hr', ?_⟩
  rw [ho, hb']
  rfl

/-- Claim C7, as stated, fails: with both thresholds admitting `INFO`, a file stream
attached and `b_base_reset` clear, `log(INFO, 255, HEX)` writes `[INFO] 255 ` and a
newline on the primary stream but `[INFO] ff ` and a newline on the file stream; and with
`b_base_reset` set, `log(INFO, x, p)` for a float `x` and a precision selector `p` of four
digits hands `x` to the primary stream with two digits and to the file stream with
four. -/
theorem C7_file_line_differs :
    (log false .LVL_INFO [.int 255, .base .HEX]
        (base_reset false (attach_file_stream ⟨1⟩ false (Manager.init .LVL_INFO .LVL_INFO)))).map
      (fun r => (written Device.digits Serial r.2, written Device.digits ⟨1⟩ r.2)) =
        some ("[INFO] 255 \n", "[INFO] ff \n") ∧
    (log false .LVL_INFO [.flt ⟨0⟩, .prec ⟨4⟩]
        (attach_file_stream ⟨1⟩ false (Manager.init .LVL_INFO .LVL_INFO))).map
      (fun r => (calls_on Serial r.2, calls_on ⟨1⟩ r.2)) =
        some
          ([.print "[INFO] ", .print_prec ⟨0⟩ 2, .print " ", .print "\n"],
            [.print "[INFO] ", .print_prec ⟨0⟩ 4, .print " ", .print "\n"]) := by
  constructor <;> rw [log_eq] <;> decide

/-- Claim C7, amended: for every `log` call whose level both thresholds admit, with a
file stream attached that is not the primary stream, the file stream receives the header,
the arguments rendered anew from the manager that the primary line has left
(`after_line args m`), and the newline.  Its bytes are those of the primary line without
the color tags whenever the argument list leaves the precision as it was and, with
`b_base_reset` clear, leaves the base as it was (in particular when it holds no
selector). -/
theorem C7_file_line_matches_primary (d : Device) (colors : Bool) (L : LogLevel)
    (args : List Arg) (m : Manager) (f : Stream)
    (hf : m.file_stream = some f) (hne : f ≠ m.primary_stream)
    (hL : L ≠ .LVL_NONE) (hle : L.toNat ≤ m.log_lvl.toNat) (hle' : L.toNat ≤ m.file_lvl.toNat) :
    ∃ r, log colors L args m = some r ∧
      written d m.primary_stream r.2 =
        (if colors then generate_color_tag L else "") ++ generate_header L ++
          String.intercalate m.delim (renderings d args m.reset_base) ++
          (if colors then DEBUGLOG_CLEAR_COLOR_TAG else "") ++ "\n" ∧
      written d f r.2 =
        generate_header L ++
          String.intercalate m.delim (renderings d args (after_line args m).reset_base) ++
          "\n" ∧
      (last_prec_list args m.log_precision = m.log_precision →
        (m.b_base_reset = false → last_base_list args m.log_base = m.log_base) →
        written d f r.2 =
          generate_header L ++ String.intercalate m.delim (renderings d args m.reset_base) ++
            "\n") := by
  have ha : admits L m.log_lvl = true := (admits_iff L m.log_lvl).2 ⟨hL, hle⟩
  have ha' : admits L m.file_lvl = true := (admits_iff L m.file_lvl).2 ⟨hL, hle'⟩
  have hdist : m.file_stream ≠ some m.primary_stream := by
    rw [hf]
    exact fun h => hne (Option.some.inj h)
  obtain ⟨r, hr, hw⟩ := written_log_primary d colors L args m hdist
  obtain ⟨r', hr', hw'⟩ := written_log_file d colors L args m f hf hne
  have e : r' = r := Option.some.inj (hr'.symm.trans hr)
  subst e
  have hfile : written d f r'.2 =
      generate_header L ++
        String.intercalate m.delim (renderings d args (after_line args m).reset_base) ++
        "\n" := by
    rw [hw', if_pos ha', if_pos ha, bytes_file_line, after_line_delim]
  refine ⟨r', hr, ?_, hfile, ?_⟩
  · rw [hw, if_pos ha, bytes_primary_line]
  · intro hprec hbase
    have hren : renderings d args (after_line args m).reset_base =
        renderings d args m.reset_base := by
      apply renderings_congr
      · rw [reset_base_log_base, reset_base_log_base, after_line_log_base,
          after_line_b_base_reset]
        cases hr0 : m.b_base_reset
        · simp [hbase hr0]
        · simp
      · simp [after_line_log_precision, hprec]
      · simp
    rw [hfile, hren]

/-- An instance of the amended C7: `log(INFO, HEX, 255)` with colors on a manager with a
file stream, both thresholds admitting `INFO` and `b_base_reset` set. -/
theorem C7_file_line_matches_primary_witness :
    (attach_file_stream ⟨1⟩ false (Manager.init .LVL_INFO .LVL_INFO)).file_stream =
        some ⟨1⟩ ∧
      (⟨1⟩ : Stream) ≠
        (attach_file_stream ⟨1⟩ false (Manager.init .LVL_INFO .LVL_INFO)).primary_stream ∧
      LogLevel.LVL_INFO ≠ LogLevel.LVL_NONE ∧
      ∃ r, log true .LVL_INFO [.base .HEX, .int 255]
          (attach_file_stream ⟨1⟩ false (Manager.init .LVL_INFO .LVL_INFO)) = some r ∧
        written Device.digits Serial r.2 = "\x1b[34m[INFO]  ff\x1b[0m\n" ∧
        written Device.digits ⟨1⟩ r.2 = "[INFO]  ff\n" := by
  refine ⟨rfl, by decide, by decide, ?_⟩
  obtain ⟨r, hr, h1, _, h2⟩ := C7_file_line_matches_primary Device.digits true .LVL_INFO
    [.base .HEX, .int 255] (attach_file_stream ⟨1⟩ false (Manager.init .LVL_INFO .LVL_INFO))
    ⟨1⟩ rfl (by decide) (by decide) (by decide) (by decide)
  refine ⟨r, hr, ?_, ?_⟩
  · rw [show Serial = (attach_file_stream ⟨1⟩ false
      (Manager.init .LVL_INFO .LVL_INFO)).primary_stream from rfl, h1]
    decide
  · rw [h2 rfl (fun h => absurd h (by decide))]
    decide

/-- Claim C8, evaluated: with no file stream attached, `print_file("x")`, `println_file()`
and the file part of `log` make no call and return, but `println_file("x")` makes a call
through the null `file_stream`: its variadic overload lacks the test of `file_stream`
that its three siblings have. -/
theorem C8_println_file_null_stream :
    println_file [.text "x"] (Manager.init .LVL_INFO .LVL_ERROR) = none ∧
    print_file [.text "x"] (Manager.init .LVL_INFO .LVL_ERROR) =
      some (Manager.init .LVL_INFO .LVL_ERROR, []) ∧
    println_file [] (Manager.init .LVL_INFO .LVL_ERROR) =
      some (Manager.init .LVL_INFO .LVL_ERROR, []) ∧
    log_file .LVL_ERROR [.text "x"] (Manager.init .LVL_INFO .LVL_ERROR) =
      some (Manager.init .LVL_INFO .LVL_ERROR, []) := by
  refine ⟨?_, ?_, ?_, ?_⟩ <;> decide

/-- Claim C9, as stated, fails: with `b_base_reset` set, `println(HEX, v, 255)` for the
sequence `v` of the single integer 1 hands 1 to the stream with base 16 but 255 with base
10: the sequence between the selector and the integer has ended with the base reset. -/
theorem C9_base_lost_after_container :
    (println [.base .HEX, .arr [.int 1], .int 255] (Manager.init .LVL_INFO .LVL_ERROR)).map
      (fun r => calls_on Serial r.2) =
        some [.print " ", .print "[", .print_base 1 16, .print "]", .print " ",
          .print_base 255 10, .print "\n"] := by
  rw [println_eq]
  decide

/-- Claim C9, amended: in an argument list where a base selector `B` is followed by
arguments without a base selector and then by an integer `n`, `print` and `println` hand
`n` to the stream with the base `B`, provided that, when `b_base_reset` is set, none of
the arguments in between is a container (a container ends with the base reset to `DEC`
when `b_base_reset` is set, which is the last conjunct).  What is written is the pack up
to `n`, the delimiter, `n` in base `B`, and the rest; with `b_base_reset` set the base is
`DEC` after the statement. -/
theorem C9_base_persists_within_statement (pre mid post : List Arg) (B : LogBase) (n : Int)
    (m : Manager)
    (hmid : ∀ a ∈ mid, ∀ b, a.last_base b = b)
    (hcont : m.b_base_reset = true → ∀ a ∈ mid, a.is_container = false) :
    (∃ r, print (pre ++ [.base B] ++ mid ++ .int n :: post) m = some r ∧
      calls_on m.primary_stream r.2 =
        pack_calls m.delim (pre ++ [.base B] ++ mid) m ++ [Call.print m.delim] ++
          [Call.print_base n B.toNat] ++
          (if post.length ≠ 0 then [Call.print m.delim] else []) ++
          pack_calls m.delim post (after_list (pre ++ [.base B] ++ mid) m) ∧
      (m.b_base_reset = true → r.1.log_base = .DEC)) ∧
    (∃ r, println (pre ++ [.base B] ++ mid ++ .int n :: post) m = some r ∧
      calls_on m.primary_stream r.2 =
        pack_calls m.delim (pre ++ [.base B] ++ mid) m ++ [Call.print m.delim] ++
          [Call.print_base n B.toNat] ++
          (if post.length ≠ 0 then [Call.print m.delim] else []) ++
          pack_calls m.delim post (after_list (pre ++ [.base B] ++ mid) m) ++
          [Call.print "\n"] ∧
      (m.b_base_reset = true → r.1.log_base = .DEC)) ∧
    (∀ c : Arg, c.is_container = true → m.b_base_reset = true →
      ∃ r, print_one c (some m.primary_stream) m = some r ∧ r.1.log_base = .DEC) := by
  have hkeep : ∀ (ys : List Arg) (m' : Manager), (∀ a ∈ ys, ∀ b, a.last_base b = b) →
      (m'.b_base_reset = true → ∀ a ∈ ys, a.is_container = false) →
      (after_list ys m').log_base = m'.log_base := by
    intro ys
    induction ys with
    | nil => intro m' _ _; rfl
    | cons a rest ih =>
      intro m' h1 h2
      have ha : (a.after m').log_base = m'.log_base := by
        rw [after_log_base, Arg.base_after, h1 a (List.mem_cons_self _ _)]
        cases hr : m'.b_base_reset
        · simp
        · simp [h2 hr a (List.mem_cons_self _ _)]
      rw [after_list_cons, ih (a.after m') (fun x hx => h1 x (List.mem_cons_of_mem _ hx))
        (fun hr x hx => h2 (by simpa using hr) x (List.mem_cons_of_mem _ hx)), ha]
  have hB : (after_list (pre ++ [.base B] ++ mid) m).log_base = B := by
    rw [after_list_append, hkeep mid _ hmid (fun hr => hcont (by simpa using hr)),
      after_list_append]
    rfl
  have hlen : (pre ++ [Arg.base B] ++ mid).length ≠ 0 := by simp
  have hpack : pack_calls m.delim (pre ++ [.base B] ++ mid ++ .int n :: post) m =
      pack_calls m.delim (pre ++ [.base B] ++ mid) m ++ [Call.print m.delim] ++
        [Call.print_base n B.toNat] ++
        (if post.length ≠ 0 then [Call.print m.delim] else []) ++
        pack_calls m.delim post (after_list (pre ++ [.base B] ++ mid) m) := by
    rw [pack_calls_append, pack_calls_cons, calls_int, after_int, hB, if_pos hlen]
    simp
  refine ⟨?_, ?_, ?_⟩
  · refine ⟨_, print_eq _ m, ?_, ?_⟩
    · rw [calls_on_map_same, hpack]
    · intro hr
      rw [print_after_log_base, hr]
      rfl
  · refine ⟨_, println_eq _ m, ?_, ?_⟩
    · rw [calls_on_map_same, hpack]
    · intro hr
      rw [print_after_log_base, hr]
      rfl
  · intro c hc hr
    refine ⟨_, print_one_eq c m.primary_stream m, ?_⟩
    simp [after_log_base, Arg.base_after, hc, hr]

/-- An instance of the amended C9: `print("v", HEX, "x", 255, "y")` with `b_base_reset`
set. -/
theorem C9_base_persists_within_statement_witness :
    (∀ a ∈ [Arg.text "x"], ∀ b, a.last_base b = b) ∧
      ((Manager.init .LVL_INFO .LVL_ERROR).b_base_reset = true →
        ∀ a ∈ [Arg.text "x"], a.is_container = false) ∧
      ∃ r, print [.text "v", .base .HEX, .text "x", .int 255, .text "y"]
          (Manager.init .LVL_INFO .LVL_ERROR) = some r ∧
        calls_on Serial r.2 =
          [.print "v", .print " ", .print " ", .print "x", .print " ", .print_base 255 16,
            .print " ", .print "y"] ∧
        r.1.log_base = LogBase.DEC := by
  have hmid : ∀ a ∈ [Arg.text "x"], ∀ b, a.last_base b = b := by
    intro a ha b
    rw [List.mem_singleton.1 ha]
    rfl
  have hcont : (Manager.init .LVL_INFO .LVL_ERROR).b_base_reset = true →
      ∀ a ∈ [Arg.text "x"], a.is_container = false := by
    intro _ a ha
    rw [List.mem_singleton.1 ha]
    rfl
  refine ⟨hmid, hcont, ?_⟩
  obtain ⟨⟨r, hr, hc, hb⟩, _, _⟩ := C9_base_persists_within_statement [.text "v"] [.text "x"]
    [.text "y"] .HEX 255 (Manager.init .LVL_INFO .LVL_ERROR) hmid hcont
  refine ⟨r, hr, ?_, hb rfl⟩
  rw [show Serial = (Manager.init .LVL_INFO .LVL_ERROR).primary_stream from rfl, hc]
  decide

/-- Claim C10, as stated, fails: on the initial manager (`b_base_reset` set),
`print(p)` for a precision selector `p` of four digits leaves the precision at four
digits, not at the default of two, and a next `print(x)` hands the float `x` to the stream
with four digits. -/
theorem C10_precision_not_reset :
    (print [.prec ⟨4⟩] (Manager.init .LVL_INFO .LVL_ERROR)).map
        (fun r => (r.1.b_base_reset, r.1.log_base, r.1.log_precision)) =
      some (true, LogBase.DEC, ⟨4⟩) ∧
    ((print [.prec ⟨4⟩] (Manager.init .LVL_INFO .LVL_ERROR)).bind
        (fun r => print [.flt ⟨0⟩] r.1)).map (fun r => r.2) =
      some [(Serial, Call.print_prec ⟨0⟩ 4)] := by
  constructor <;> decide

/-- Claim C10, amended: whatever `b_base_reset` is, after every `print`, `println` and
`log` that writes a line the precision is the one that the statement selected last (the
precision before it, when it selected none); no statement returns it to the default.
`b_base_reset` resets the base only: when it is set, the base is `DEC` after the
statement. -/
theorem C10_precision_after_statement (args : List Arg) (colors : Bool) (L : LogLevel)
    (m : Manager) (hL : L ≠ .LVL_NONE)
    (hemit : L.toNat ≤ m.log_lvl.toNat ∨ (m.file_stream ≠ none ∧ L.toNat ≤ m.file_lvl.toNat)) :
    (∃ r, print args m = some r ∧
      r.1.log_precision = last_prec_list args m.log_precision ∧
      (m.b_base_reset = true → r.1.log_base = .DEC)) ∧
    (∃ r, println args m = some r ∧
      r.1.log_precision = last_prec_list args m.log_precision ∧
      (m.b_base_reset = true → r.1.log_base = .DEC)) ∧
    (∃ r, log colors L args m = some r ∧
      r.1.log_precision = last_prec_list args m.log_precision ∧
      (m.b_base_reset = true → r.1.log_base = .DEC)) := by
  refine ⟨?_, ?_, ?_⟩
  · refine ⟨_, print_eq args m, ?_, ?_⟩
    · simp [after_list_log_precision]
    · intro hr
      rw [print_after_log_base, hr]
      rfl
  · refine ⟨_, println_eq args m, ?_, ?_⟩
    · simp [after_list_log_precision]
    · intro hr
      rw [print_after_log_base, hr]
      rfl
  · obtain ⟨r, hr, _, hbase, hprec⟩ := log_after_emitting colors L args m
      (emits_of_admitted L m hL hemit)
    refine ⟨r, hr, hprec, ?_⟩
    intro hr'
    rw [hbase, hr']
    rfl

/-- An instance of the amended C10: `log(INFO, p, x)` with a precision selector `p` of
four digits on the initial manager leaves four digits and the base `DEC`. -/
theorem C10_precision_after_statement_witness :
    LogLevel.LVL_INFO ≠ LogLevel.LVL_NONE ∧
      LogLevel.LVL_INFO.toNat ≤ (Manager.init .LVL_INFO .LVL_ERROR).log_lvl.toNat ∧
      ∃ r, log false .LVL_INFO [.prec ⟨4⟩, .flt ⟨0⟩] (Manager.init .LVL_INFO .LVL_ERROR) =
          some r ∧
        r.1.log_precision = ⟨4⟩ ∧ r.1.log_base = LogBase.DEC := by
  refine ⟨by decide, by decide, ?_⟩
  obtain ⟨_, _, r, hr, hp, hb⟩ := C10_precision_after_statement [.prec ⟨4⟩, .flt ⟨0⟩] false
    .LVL_INFO (Manager.init .LVL_INFO .LVL_ERROR) (by decide) (Or.inl (by decide))
  exact ⟨r, hr, hp, hb rfl⟩

/-- Claim C11, evaluated: with `b_base_reset` set, `println(HEX, m)` for the mapping `m`
of `"a"` and `"b"` to the sequence `255, 255` hands the integers of the first value to the
stream with base 16 but those of the second value with base 10.  `print_map` saves and
restores `b_base_reset` without clearing it in between, so the first nested `print_array`
ends with the base reset.  `print_array` clears the flag: the same two sequences nested in
a sequence are all handed over with base 16. -/
theorem C11_map_values_lose_base :
    (println [.base .HEX,
        .map [(.text "a", .arr [.int 255, .int 255]), (.text "b", .arr [.int 255, .int 255])]]
        (Manager.init .LVL_INFO .LVL_ERROR)).map (fun r => calls_on Serial r.2) =
      some [.print " ", .print "\x7b",
        .print "a", .print ":", .print "[", .print_base 255 16, .print ", ",
          .print_base 255 16, .print "]", .print ", ",
        .print "b", .print ":", .print "[", .print_base 255 10, .print ", ",
          .print_base 255 10, .print "]",
        .print "\x7d", .print "\n"] ∧
    (println [.base .HEX, .arr [.arr [.int 255, .int 255], .arr [.int 255, .int 255]]]
        (Manager.init .LVL_INFO .LVL_ERROR)).map (fun r => calls_on Serial r.2) =
      some [.print " ", .print "[",
        .print "[", .print_base 255 16, .print ", ", .print_base 255 16, .print "]",
        .print ", ",
        .print "[", .print_base 255 16, .print ", ", .print_base 255 16, .print "]",
        .print "]", .print "\n"] := by
  constructor <;>
  refine (println_calls_on _ (Manager.init .LVL_INFO .LVL_ERROR)).trans ?_ <;>
  simp [pack_calls, pair_calls, calls_text, calls_int, calls_base, calls_arr, calls_map,
    after_text, after_int, after_base, after_eq, Manager.set_fmt, Arg.base_after,
    Arg.is_container, Arg.last_base, last_base_list, last_base_pairs, Manager.init,
    LogBase.toNat, Arg.last_prec, last_prec_list, last_prec_pairs]

/-- Claim C12: for every sequence of mappings, every base `B` in force and either value
of `b_base_reset`, `print_array` writes `"["`, the renderings of the mappings (each an
opening brace, its pairs joined by `", "`, a closing brace) joined by `", "`, and `"]"`;
`b_base_reset` has its value from before afterwards; and, the mappings holding no base
selector, every integer is handed to the stream with the base `B` and the base is `B`
or, with `b_base_reset` set, `DEC` afterwards.  As an argument of `print_one` the sequence
is handled by this `print_array`. -/
theorem C12_sequence_of_mappings (d : Device) (ms : List (List (Arg × Arg))) (h : Stream)
    (m : Manager) :
    ∃ r, print_array (ms.map Arg.map) (some h) m = some r ∧
      print_one (.arr (ms.map Arg.map)) (some h) m = some r ∧
      written d h r.2 =
        "[" ++ String.intercalate ", " (map_renderings d ms { m with b_base_reset := false })
          ++ "]" ∧
      r.1.b_base_reset = m.b_base_reset ∧
      (has_base_list (ms.map Arg.map) = false →
        (∀ c ∈ calls_on h r.2, c.off_base m.log_base = false) ∧
        r.1.log_base = if m.b_base_reset then .DEC else m.log_base) := by
  have e := print_one_eq (.arr (ms.map Arg.map)) h m
  refine ⟨_, (print_array_eq_print_one _ (some h) m).trans e, e, ?_, ?_, ?_⟩
  · rw [written_map_same, calls_arr]
    simp [bytes_append, bytes, Call.bytes, bytes_pack_calls, renderings_maps,
      String.append_assoc]
  · simp
  · intro hsel
    constructor
    · rw [calls_on_map_same, calls_arr]
      intro c hc
      simp only [List.mem_append, List.mem_singleton] at hc
      rcases hc with (hc | hc) | hc
      · simp [hc, Call.off_base]
      · exact no_base_pack_calls ", " _ { m with b_base_reset := false } rfl hsel c hc
      · simp [hc, Call.off_base]
    · rw [after_log_base, Arg.base_after]
      cases hr : m.b_base_reset
      · simp [Arg.last_base, no_base_last_base_list _ hsel]
      · simp [Arg.is_container]

/-- An instance of C12: the sequence of the mappings of 10 to 255 and of 11 to 255, with
the base `HEX` in force and `b_base_reset` set. -/
theorem C12_sequence_of_mappings_witness :
    has_base_list ([[(Arg.int 10, Arg.int 255)], [(Arg.int 11, Arg.int 255)]].map Arg.map) =
        false ∧
      ∃ r, print_array ([[(Arg.int 10, Arg.int 255)], [(Arg.int 11, Arg.int 255)]].map Arg.map)
          (some Serial) ((Manager.init .LVL_INFO .LVL_ERROR).set_fmt .HEX .TWO) = some r ∧
        written Device.digits Serial r.2 = "[\x7ba:ff\x7d, \x7bb:ff\x7d]" ∧
        r.1.b_base_reset = true ∧
        ∀ c ∈ calls_on Serial r.2, c.off_base .HEX = false := by
  refine ⟨by decide, ?_⟩
  obtain ⟨r, hr, _, hw, hb, hsel⟩ := C12_sequence_of_mappings Device.digits
    [[(Arg.int 10, Arg.int 255)], [(Arg.int 11, Arg.int 255)]] Serial
    ((Manager.init .LVL_INFO .LVL_ERROR).set_fmt .HEX .TWO)
  refine ⟨r, hr, ?_, hb, (hsel (by decide)).1⟩
  rw [hw]
  decide

/-- Claim C13, as stated, fails in its second half: two managers that differ in the
primary threshold only (`INFO` against `NONE`), with a file stream attached and
`b_base_reset` clear, put different bytes on the file stream for `log(INFO, 255, HEX)`:
`[INFO] ff ` after the primary line has been written, `[INFO] 255 ` when it has not.  With
`b_base_reset` set the same happens to the digits of a float that is followed by a
precision selector. -/
theorem C13_file_bytes_depend_on_primary_threshold :
    ((log false .LVL_INFO [.int 255, .base .HEX]
          (base_reset false
            (attach_file_stream ⟨1⟩ false (Manager.init .LVL_INFO .LVL_INFO)))).map
        (fun r => written Device.digits ⟨1⟩ r.2) = some "[INFO] ff \n" ∧
      (log false .LVL_INFO [.int 255, .base .HEX]
          (log_level .LVL_NONE (base_reset false
            (attach_file_stream ⟨1⟩ false (Manager.init .LVL_INFO .LVL_INFO))))).map
        (fun r => written Device.digits ⟨1⟩ r.2) = some "[INFO] 255 \n") ∧
    ((log false .LVL_INFO [.flt ⟨0⟩, .prec ⟨4⟩]
          (attach_file_stream ⟨1⟩ false (Manager.init .LVL_INFO .LVL_INFO))).map
        (fun r => calls_on ⟨1⟩ r.2) =
          some [.print "[INFO] ", .print_prec ⟨0⟩ 4, .print " ", .print "\n"] ∧
      (log false .LVL_INFO [.flt ⟨0⟩, .prec ⟨4⟩]
          (log_level .LVL_NONE
            (attach_file_stream ⟨1⟩ false (Manager.init .LVL_INFO .LVL_INFO)))).map
        (fun r => calls_on ⟨1⟩ r.2) =
          some [.print "[INFO] ", .print_prec ⟨0⟩ 2, .print " ", .print "\n"]) := by
  refine ⟨⟨?_, ?_⟩, ⟨?_, ?_⟩⟩ <;> rw [log_eq] <;> decide

/-- Claim C13, amended: the bytes that `log` puts on the primary stream do not depend on
the file threshold, on whether a file stream is attached, or on its auto-save flag (`m`
and `m'` agree in everything else).  The bytes that it puts on the attached file stream do
not depend on the primary threshold (`m2` against `log_level T m2`) whenever the argument
list leaves the precision as it was and, with `b_base_reset` clear, leaves the base as it
was; otherwise the file line is rendered from what the primary line, when written, has
left.  The file stream is another stream than the primary one. -/
theorem C13_sink_independence (d : Device) (colors : Bool) (L : LogLevel) (args : List Arg)
    (m m' : Manager)
    (hlvl : m'.log_lvl = m.log_lvl) (hbase : m'.log_base = m.log_base)
    (hdelim : m'.delim = m.delim) (hreset : m'.b_base_reset = m.b_base_reset)
    (hprim : m'.primary_stream = m.primary_stream)
    (hprec : m'.log_precision = m.log_precision)
    (hdist : m.file_stream ≠ some m.primary_stream)
    (hdist' : m'.file_stream ≠ some m'.primary_stream)
    (m2 : Manager) (f : Stream) (T : LogLevel)
    (hf : m2.file_stream = some f) (hne : f ≠ m2.primary_stream) :
    (∃ r r', log colors L args m = some r ∧ log colors L args m' = some r' ∧
      written d m.primary_stream r'.2 = written d m.primary_stream r.2) ∧
    (last_prec_list args m2.log_precision = m2.log_precision →
      (m2.b_base_reset = false → last_base_list args m2.log_base = m2.log_base) →
      ∃ r r', log colors L args m2 = some r ∧ log colors L args (log_level T m2) = some r' ∧
        written d f r'.2 = written d f r.2) := by
  constructor
  · obtain ⟨r, hr, hw⟩ := written_log_primary d colors L args m hdist
    obtain ⟨r', hr', hw'⟩ := written_log_primary d colors L args m' hdist'
    refine ⟨r, r', hr, hr', ?_⟩
    rw [hprim] at hw'
    rw [hw', hw, hlvl, bytes_primary_line, bytes_primary_line, hdelim,
      renderings_reset_congr d args m' m hreset hprec (fun _ => hbase)]
  · intro hp hb
    obtain ⟨r, hr, hw⟩ := written_log_file d colors L args m2 f hf hne
    obtain ⟨r', hr', hw'⟩ := written_log_file d colors L args (log_level T m2) f hf hne
    refine ⟨r, r', hr, hr', ?_⟩
    have key : ∀ S : Manager, S.delim = m2.delim → S.b_base_reset = m2.b_base_reset →
        S.log_precision = m2.log_precision →
        (m2.b_base_reset = false → S.log_base = m2.log_base) →
        bytes d (file_line L args S) = bytes d (file_line L args m2) := by
      intro S h1 h2 h3 h4
      rw [bytes_file_line, bytes_file_line, h1, renderings_reset_congr d args S m2 h2 h3 h4]
    have kA : bytes d (file_line L args (after_line args m2)) =
        bytes d (file_line L args m2) :=
      key _ (by simp) (by simp) (by rw [after_line_log_precision, hp])
        (fun h0 => by rw [after_line_log_base, h0]; simpa using hb h0)
    have kB : bytes d (file_line L args (log_level T m2)) = bytes d (file_line L args m2) :=
      key _ rfl rfl rfl (fun _ => rfl)
    have kC : bytes d (file_line L args (after_line args (log_level T m2))) =
        bytes d (file_line L args m2) :=
      key _ (by simp [log_level]) (by simp [log_level])
        (by rw [after_line_log_precision]; exact hp)
        (fun h0 => by
          rw [after_line_log_base]
          have : (log_level T m2).b_base_reset = false := h0
          rw [this]
          simpa using hb h0)
    rw [hw', hw]
    have e1 : (log_level T m2).file_lvl = m2.file_lvl := rfl
    rw [e1]
    by_cases ha : admits L m2.file_lvl = true
    · simp only [ha, if_true]
      by_cases h1 : admits L m2.log_lvl = true <;>
      by_cases h2 : admits L (log_level T m2).log_lvl = true <;>
      simp only [h1, h2, if_true, if_false, Bool.false_eq_true, kA, kB, kC]
    · simp [ha]

/-- An instance of the amended C13: `log(INFO, HEX, 255)` on a manager without a file
stream and on one with a file stream whose threshold is `NONE`; and, for the file stream,
with the primary threshold `INFO` and `NONE`. -/
theorem C13_sink_independence_witness :
    (Manager.init .LVL_INFO .LVL_ERROR).file_stream ≠
        some (Manager.init .LVL_INFO .LVL_ERROR).primary_stream ∧
      (attach_file_stream ⟨1⟩ true (Manager.init .LVL_INFO .LVL_NONE)).file_stream ≠
        some (attach_file_stream ⟨1⟩ true (Manager.init .LVL_INFO .LVL_NONE)).primary_stream ∧
      (∃ r r', log true .LVL_INFO [.base .HEX, .int 255] (Manager.init .LVL_INFO .LVL_ERROR) =
          some r ∧
        log true .LVL_INFO [.base .HEX, .int 255]
          (attach_file_stream ⟨1⟩ true (Manager.init .LVL_INFO .LVL_NONE)) = some r' ∧
        written Device.digits Serial r'.2 = written Device.digits Serial r.2) ∧
      ∃ r r', log true .LVL_INFO [.base .HEX, .int 255]
          (attach_file_stream ⟨1⟩ true (Manager.init .LVL_INFO .LVL_INFO)) = some r ∧
        log true .LVL_INFO [.base .HEX, .int 255]
          (log_level .LVL_NONE
            (attach_file_stream ⟨1⟩ true (Manager.init .LVL_INFO .LVL_INFO))) = some r' ∧
        written Device.digits ⟨1⟩ r'.2 = written Device.digits ⟨1⟩ r.2 := by
  have h := C13_sink_independence Device.digits true .LVL_INFO [.base .HEX, .int 255]
    (Manager.init .LVL_INFO .LVL_ERROR)
    (attach_file_stream ⟨1⟩ true (Manager.init .LVL_INFO .LVL_NONE)) rfl rfl rfl rfl rfl rfl
    (by decide) (by decide)
    (attach_file_stream ⟨1⟩ true (Manager.init .LVL_INFO .LVL_INFO)) ⟨1⟩ .LVL_NONE rfl
    (by decide)
  exact ⟨by decide, by decide, h.1, h.2 rfl (fun h0 => absurd h0 (by decide))⟩

/-- Claim C14: for every `log` call that writes a line to the attached file stream
(another stream than the primary one): when `b_auto_save` is set (the stream was attached
with `auto_save`), the last two calls on the file stream are the `print` of the newline
and a `flush`; when it is clear, the call makes no `flush` on the file stream. -/
theorem C14_flush_after_file_line (colors : Bool) (L : LogLevel) (args : List Arg)
    (m : Manager) (f : Stream) (hf : m.file_stream = some f) (hne : f ≠ m.primary_stream)
    (hL : L ≠ .LVL_NONE) (hle : L.toNat ≤ m.file_lvl.toNat) :
    ∃ r, log colors L args m = some r ∧
      (m.b_auto_save = true →
        ∃ pre, calls_on f r.2 = pre ++ [Call.print "\n", Call.flush]) ∧
      (m.b_auto_save = false → Call.flush ∉ calls_on f r.2) := by
  have ha : admits L m.file_lvl = true := (admits_iff L m.file_lvl).2 ⟨hL, hle⟩
  obtain ⟨r, hr, hc⟩ := calls_on_log_file colors L args m f hf hne
  rw [if_pos ha] at hc
  refine ⟨r, hr, ?_, ?_⟩
  · intro hs
    have hs' : (if admits L m.log_lvl = true then after_line args m else m).b_auto_save =
        true := by
      split <;> simp [hs]
    refine ⟨[Call.print (generate_header L)] ++ [Call.flush] ++
      pack_calls (if admits L m.log_lvl = true then after_line args m else m).delim args
        (if admits L m.log_lvl = true then after_line args m else m).reset_base, ?_⟩
    rw [hc, file_line, hs']
    simp
  · intro hs
    have hs' : (if admits L m.log_lvl = true then after_line args m else m).b_auto_save =
        false := by
      split <;> simp [hs]
    rw [hc, file_line, hs']
    simp [flush_not_mem_pack_calls]

/-- An instance of C14: an `ERROR` line on a file stream attached with `auto_save`. -/
theorem C14_flush_after_file_line_witness :
    (attach_file_stream ⟨1⟩ true (Manager.init .LVL_INFO .LVL_ERROR)).file_stream =
        some ⟨1⟩ ∧
      (⟨1⟩ : Stream) ≠
        (attach_file_stream ⟨1⟩ true (Manager.init .LVL_INFO .LVL_ERROR)).primary_stream ∧
      LogLevel.LVL_ERROR ≠ LogLevel.LVL_NONE ∧
      ∃ r, log false .LVL_ERROR [.text "x"]
          (attach_file_stream ⟨1⟩ true (Manager.init .LVL_INFO .LVL_ERROR)) = some r ∧
        ∃ pre, calls_on ⟨1⟩ r.2 = pre ++ [Call.print "\n", Call.flush] := by
  refine ⟨rfl, by decide, by decide, ?_⟩
  obtain ⟨r, hr, h1, _⟩ := C14_flush_after_file_line false .LVL_ERROR [.text "x"]
    (attach_file_stream ⟨1⟩ true (Manager.init .LVL_INFO .LVL_ERROR)) ⟨1⟩ rfl (by decide)
    (by decide) (by decide)
  exact ⟨r, hr, h1 rfl⟩

/-- Claim C15: with a file stream attached (another stream than the primary one), for
every argument list and every manager, whatever the file threshold, `print_file(args)` and
`println_file(args)` put on the file stream exactly the bytes that `print(args)` and
`println(args)` put on the primary stream from the same manager, and make no call on the
primary stream. -/
theorem C15_print_file_mirrors_print (d : Device) (args : List Arg) (m : Manager)
    (f : Stream) (hf : m.file_stream = some f) (hne : f ≠ m.primary_stream) :
    ∃ r r' p p', print_file args m = some r ∧ println_file args m = some r' ∧
      print args m = some p ∧ println args m = some p' ∧
      written d f r.2 = written d m.primary_stream p.2 ∧
      written d f r'.2 = written d m.primary_stream p'.2 ∧
      calls_on m.primary_stream r.2 = [] ∧ calls_on m.primary_stream r'.2 = [] := by
  refine ⟨_, _, _, _, print_file_eq args m f hf, println_file_eq args m f hf, print_eq args m,
    println_eq args m, ?_, ?_, ?_, ?_⟩
  · rw [written_map_same, written_map_same, bytes_append]
    cases m.b_auto_save <;> simp [bytes, Call.bytes]
  · rw [written_map_same, written_map_same, bytes_append]
    cases m.b_auto_save <;> simp [bytes, Call.bytes]
  · exact calls_on_map_other _ _ _ hne
  · exact calls_on_map_other _ _ _ hne

/-- An instance of C15: `print_file("x", 7)` and `println_file("x", 7)` with the file
threshold `NONE`. -/
theorem C15_print_file_mirrors_print_witness :
    (attach_file_stream ⟨1⟩ true (Manager.init .LVL_INFO .LVL_NONE)).file_stream =
        some ⟨1⟩ ∧
      (⟨1⟩ : Stream) ≠
        (attach_file_stream ⟨1⟩ true (Manager.init .LVL_INFO .LVL_NONE)).primary_stream ∧
      ∃ r r', print_file [.text "x", .int 7]
          (attach_file_stream ⟨1⟩ true (Manager.init .LVL_INFO .LVL_NONE)) = some r ∧
        println_file [.text "x", .int 7]
          (attach_file_stream ⟨1⟩ true (Manager.init .LVL_INFO .LVL_NONE)) = some r' ∧
        written Device.digits ⟨1⟩ r.2 = "x 7" ∧ written Device.digits ⟨1⟩ r'.2 = "x 7\n" ∧
        calls_on Serial r.2 = [] ∧ calls_on Serial r'.2 = [] := by
  refine ⟨rfl, by decide, ?_⟩
  obtain ⟨r, r', p, p', h1, h2, h3, h4, h5, h6, h7, h8⟩ := C15_print_file_mirrors_print
    Device.digits [.text "x", .int 7]
    (attach_file_stream ⟨1⟩ true (Manager.init .LVL_INFO .LVL_NONE)) ⟨1⟩ rfl (by decide)
  rw [print_eq] at h3
  rw [println_eq] at h4
  refine ⟨r, r', h1, h2, ?_, ?_, h7, h8⟩
  · rw [h5, ← Option.some.inj h3, written_map_same]
    decide
  · rw [h6, ← Option.some.inj h4, written_map_same]
    decide

/-- Claim C16: with colors, for a level `L` that the primary threshold admits, `log` puts
on the primary stream exactly the color tag of `L`, the header of `L`, the renderings of
the arguments joined by the delimiter, the clear tag and a newline, with nothing between
tag, header and first rendering or before the clear tag; the file stream (another stream
than the primary one) gets the header, the joined renderings and the newline, without a
tag, when its threshold admits `L`, and nothing otherwise.  The primary part holds on
`std::cout` in the build without `ARDUINO` as well. -/
theorem C16_log_line_with_colors (d : Device) (L : LogLevel) (args : List Arg) (m : Manager)
    (hdist : m.file_stream ≠ some m.primary_stream) (hL : L ≠ .LVL_NONE)
    (hle : L.toNat ≤ m.log_lvl.toNat)
    (hargs : List Hosted.Arg) (hm : Hosted.Manager) (hle' : L.toNat ≤ hm.log_lvl.toNat) :
    (∃ r, log true L args m = some r ∧
      written d m.primary_stream r.2 =
        generate_color_tag L ++ generate_header L ++
          String.intercalate m.delim (renderings d args m.reset_base) ++
          DEBUGLOG_CLEAR_COLOR_TAG ++ "\n" ∧
      ∀ f, m.file_stream = some f →
        written d f r.2 =
          if L.toNat ≤ m.file_lvl.toNat then
            generate_header L ++
              String.intercalate m.delim (renderings d args (after_line args m).reset_base) ++
              "\n"
          else "") ∧
    bytes d (Hosted.log true L hargs hm).2 =
      generate_color_tag L ++ generate_header L ++
        String.intercalate hm.delim (hargs.map (Hosted.rendering d hm.reset_base)) ++
        DEBUGLOG_CLEAR_COLOR_TAG ++ "\n" := by
  have ha : admits L m.log_lvl = true := (admits_iff L m.log_lvl).2 ⟨hL, hle⟩
  have ha' : admits L hm.log_lvl = true := (admits_iff L hm.log_lvl).2 ⟨hL, hle'⟩
  constructor
  · obtain ⟨r, hr, hw⟩ := written_log_primary d true L args m hdist
    refine ⟨r, hr, ?_, ?_⟩
    · rw [hw, if_pos ha, bytes_primary_line]
      simp
    · intro f hf
      have hne : f ≠ m.primary_stream := fun h => hdist (by rw [hf, h])
      obtain ⟨r', hr', hw'⟩ := written_log_file d true L args m f hf hne
      have e : r' = r := Option.some.inj (hr'.symm.trans hr)
      subst e
      rw [hw', if_pos ha]
      by_cases h2 : L.toNat ≤ m.file_lvl.toNat
      · rw [if_pos ((admits_iff L m.file_lvl).2 ⟨hL, h2⟩), if_pos h2, bytes_file_line,
          after_line_delim]
      · have : admits L m.file_lvl ≠ true := fun h => h2 ((admits_iff L m.file_lvl).1 h).2
        rw [if_neg this, if_neg h2]
  · rw [Hosted.hosted_log_eq, if_pos ha', Hosted.bytes_log_primary]
    simp

/-- An instance of C16: `log(WARN, "a", 7)` with colors on a manager with a file stream,
both thresholds `INFO`. -/
theorem C16_log_line_with_colors_witness :
    (attach_file_stream ⟨1⟩ false (Manager.init .LVL_INFO .LVL_INFO)).file_stream ≠
        some (attach_file_stream ⟨1⟩ false (Manager.init .LVL_INFO .LVL_INFO)).primary_stream ∧
      LogLevel.LVL_WARN ≠ LogLevel.LVL_NONE ∧
      ∃ r, log true .LVL_WARN [.text "a", .int 7]
          (attach_file_stream ⟨1⟩ false (Manager.init .LVL_INFO .LVL_INFO)) = some r ∧
        written Device.digits Serial r.2 = "\x1b[33m[WARN] a 7\x1b[0m\n" ∧
        written Device.digits ⟨1⟩ r.2 = "[WARN] a 7\n" := by
  refine ⟨by decide, by decide, ?_⟩
  obtain ⟨⟨r, hr, h1, h2⟩, _⟩ := C16_log_line_with_colors Device.digits .LVL_WARN
    [.text "a", .int 7] (attach_file_stream ⟨1⟩ false (Manager.init .LVL_INFO .LVL_INFO))
    (by decide) (by decide) (by decide) [] ⟨.LVL_INFO, .DEC, " ", true⟩ (by decide)
  refine ⟨r, hr, ?_, ?_⟩
  · rw [show Serial = (attach_file_stream ⟨1⟩ false
      (Manager.init .LVL_INFO .LVL_INFO)).primary_stream from rfl, h1]
    decide
  · rw [h2 ⟨1⟩ rfl]
    decide

/-- Claim C17: `generate_header` and `generate_color_tag` are functions of the level
alone; `ERROR`, `WARN`, `INFO`, `DEBUG`, `TRACE`, `NONE` are mapped to `"[ERROR] "`,
`"[WARN] "`, `"[INFO] "`, `"[DEBUG] "`, `"[TRACE] "`, `"[NONE] "` and to their escape
sequences, and every value `v` that is none of the six levels is mapped to the empty
string by both. -/
theorem C17_header_and_tag_lookup (l : LogLevel) (v : Int)
    (hv : ∀ l' : LogLevel, v ≠ l'.toNat) :
    (generate_header_value l.toNat = generate_header l ∧
      generate_color_tag_value l.toNat = generate_color_tag l) ∧
    (generate_header .LVL_ERROR = "[ERROR] " ∧ generate_header .LVL_WARN = "[WARN] " ∧
      generate_header .LVL_INFO = "[INFO] " ∧ generate_header .LVL_DEBUG = "[DEBUG] " ∧
      generate_header .LVL_TRACE = "[TRACE] " ∧ generate_header .LVL_NONE = "[NONE] ") ∧
    (generate_color_tag .LVL_ERROR = "\x1b[31m" ∧ generate_color_tag .LVL_WARN = "\x1b[33m" ∧
      generate_color_tag .LVL_INFO = "\x1b[34m" ∧ generate_color_tag .LVL_DEBUG = "\x1b[35m" ∧
      generate_color_tag .LVL_TRACE = "\x1b[37m" ∧ generate_color_tag .LVL_NONE = "\x1b[37m") ∧
    (generate_header_value v = "" ∧ generate_color_tag_value v = "") := by
  refine ⟨?_, ⟨rfl, rfl, rfl, rfl, rfl, rfl⟩, ⟨rfl, rfl, rfl, rfl, rfl, rfl⟩, ?_⟩
  · cases l <;> exact ⟨by decide, by decide⟩
  · have h1 := hv .LVL_ERROR
    have h2 := hv .LVL_WARN
    have h3 := hv .LVL_INFO
    have h4 := hv .LVL_DEBUG
    have h5 := hv .LVL_TRACE
    have h6 := hv .LVL_NONE
    simp [generate_header_value, generate_color_tag_value, h1, h2, h3, h4, h5, h6]

/-- An instance of C17: the value 7 is none of the six levels. -/
theorem C17_header_and_tag_lookup_witness :
    (∀ l' : LogLevel, (7 : Int) ≠ l'.toNat) ∧
      generate_header_value 7 = "" ∧ generate_color_tag_value 7 = "" := by
  have hv : ∀ l' : LogLevel, (7 : Int) ≠ l'.toNat := by
    intro l'
    cases l' <;> decide
  exact ⟨hv, (C17_header_and_tag_lookup .LVL_INFO 7 hv).2.2.2⟩

theorem while_true_yield_false (fuel : Nat) : while_true_yield fuel = false := by
  induction fuel with
  | zero => rfl
  | succ n ih => simpa [while_true_yield] using ih

/-- Claim C18: whatever the thresholds, `assertion` with a true condition makes no call
on any stream and returns; with a false condition it makes one `println` on the primary
stream, of the text `"[ASSERT] "`, file, line, function, `" : "`, expression and, only
when the message is not empty, `" => "` and the message; when a file stream is attached it
makes the same `println` on it, followed by a `flush`; and it never returns: for every
number of iterations it is still inside its final loop. -/
theorem C18_assertion (fuel : Nat) (file : String) (line : Int) (func expr msg : String)
    (m : Manager) :
    assertion fuel true file line func expr msg m = .returned [] ∧
    assertion fuel false file line func expr msg m =
      .halted
        ([(m.primary_stream, Call.println
            ("[ASSERT] " ++ file ++ " " ++ toString line ++ " " ++ func ++ " : " ++ expr ++
              if msg.length ≠ 0 then " => " ++ msg else ""))] ++
          match m.file_stream with
          | some f =>
            [(f, Call.println
              ("[ASSERT] " ++ file ++ " " ++ toString line ++ " " ++ func ++ " : " ++ expr ++
                if msg.length ≠ 0 then " => " ++ msg else "")), (f, Call.flush)]
          | none => []) := by
  constructor
  · rfl
  · by_cases hm : msg.length ≠ 0 <;>
    simp [assertion, while_true_yield_false, hm, String.append_assoc]

theorem base_after_self (M : Manager) (B : LogBase) (hB : M.log_base = B) :
    (Arg.base B).after M = M := by
  subst hB
  rfl

theorem bytes_pack_calls_append (d : Device) (sep : String) (xs ys : List Arg) (m : Manager) :
    bytes d (pack_calls sep (xs ++ ys) m) =
      String.intercalate sep (renderings d xs m) ++
        (if xs.length ≠ 0 ∧ ys.length ≠ 0 then sep else "") ++
        String.intercalate sep (renderings d ys (after_list xs m)) := by
  cases ys with
  | nil => simp [bytes_pack_calls, renderings, String.intercalate]
  | cons y rest =>
    rw [pack_calls_append, bytes_append, bytes_append, bytes_pack_calls, bytes_pack_calls]
    by_cases hl : xs.length ≠ 0 <;> simp [hl, bytes, Call.bytes]

/-- Claim C19, as stated, fails: from the base `DEC`, `print(DEC, 255)` makes a `print`
of the delimiter before it hands 255 to the stream, and writes ` 255` with a leading
blank, where `print(255)` writes `255`. -/
theorem C19_selector_takes_a_delimiter :
    (print [.base .DEC, .int 255] (Manager.init .LVL_INFO .LVL_ERROR)).map
        (fun r => (calls_on Serial r.2, written Device.digits Serial r.2)) =
      some ([.print " ", .print_base 255 10], " 255") ∧
    (print [.int 255] (Manager.init .LVL_INFO .LVL_ERROR)).map
        (fun r => (calls_on Serial r.2, written Device.digits Serial r.2)) =
      some ([.print_base 255 10], "255") := by
  constructor <;> decide

/-- Claim C19, amended: a base selector gives rise to no call of its own, but it is an
argument of the pack and is followed, or preceded, by the delimiter like any other.  When
a selector of the base in force is put between the arguments `pre` and `post`, `print` and
`println` leave the same manager and write the same renderings of `pre` and of `post`;
between the two there is one delimiter without the selector (when neither is empty), and
with the selector one delimiter for each of `pre` and `post` that is not empty. -/
theorem C19_selector_in_pack (d : Device) (pre post : List Arg) (B : LogBase) (m : Manager)
    (hB : (after_list pre m).log_base = B) :
    (∃ r r', print (pre ++ post) m = some r ∧ print (pre ++ .base B :: post) m = some r' ∧
      r'.1 = r.1 ∧
      written d m.primary_stream r.2 =
        String.intercalate m.delim (renderings d pre m) ++
          (if pre.length ≠ 0 ∧ post.length ≠ 0 then m.delim else "") ++
          String.intercalate m.delim (renderings d post (after_list pre m)) ∧
      written d m.primary_stream r'.2 =
        String.intercalate m.delim (renderings d pre m) ++
          (if pre.length ≠ 0 then m.delim else "") ++
          (if post.length ≠ 0 then m.delim else "") ++
          String.intercalate m.delim (renderings d post (after_list pre m))) ∧
    (∃ r r', println (pre ++ post) m = some r ∧
      println (pre ++ .base B :: post) m = some r' ∧ r'.1 = r.1 ∧
      written d m.primary_stream r.2 =
        String.intercalate m.delim (renderings d pre m) ++
          (if pre.length ≠ 0 ∧ post.length ≠ 0 then m.delim else "") ++
          String.intercalate m.delim (renderings d post (after_list pre m)) ++ "\n" ∧
      written d m.primary_stream r'.2 =
        String.intercalate m.delim (renderings d pre m) ++
          (if pre.length ≠ 0 then m.delim else "") ++
          (if post.length ≠ 0 then m.delim else "") ++
          String.intercalate m.delim (renderings d post (after_list pre m)) ++ "\n") := by
  have hst : after_list (pre ++ .base B :: post) m = after_list (pre ++ post) m := by
    rw [after_list_append, after_list_append, after_list_cons,
      base_after_self (after_list pre m) B hB]
  have hsel : bytes d (pack_calls m.delim (pre ++ .base B :: post) m) =
      String.intercalate m.delim (renderings d pre m) ++
        (if pre.length ≠ 0 then m.delim else "") ++
        (if post.length ≠ 0 then m.delim else "") ++
        String.intercalate m.delim (renderings d post (after_list pre m)) := by
    rw [pack_calls_append, pack_calls_cons, calls_base,
      base_after_self (after_list pre m) B hB]
    simp only [bytes_append, bytes_pack_calls, List.nil_append]
    by_cases h1 : pre.length ≠ 0 <;> by_cases h2 : post.length ≠ 0 <;>
    simp [h1, h2, bytes, Call.bytes, String.append_assoc]
  constructor
  · refine ⟨_, _, print_eq _ m, print_eq _ m, by rw [hst], ?_, ?_⟩
    · rw [written_map_same, bytes_pack_calls_append]
    · rw [written_map_same, hsel]
  · refine ⟨_, _, println_eq _ m, println_eq _ m, by rw [hst], ?_, ?_⟩
    · rw [written_map_same, bytes_append, bytes_pack_calls_append]
      simp [bytes, Call.bytes]
    · rw [written_map_same, bytes_append, hsel]
      simp [bytes, Call.bytes]

/-- An instance of the amended C19: `print("a", DEC, 255)` against `print("a", 255)` on
the initial manager. -/
theorem C19_selector_in_pack_witness :
    (after_list [Arg.text "a"] (Manager.init .LVL_INFO .LVL_ERROR)).log_base = LogBase.DEC ∧
      ∃ r r', print [.text "a", .int 255] (Manager.init .LVL_INFO .LVL_ERROR) = some r ∧
        print [.text "a", .base .DEC, .int 255] (Manager.init .LVL_INFO .LVL_ERROR) =
          some r' ∧
        written Device.digits Serial r.2 = "a 255" ∧
        written Device.digits Serial r'.2 = "a  255" := by
  refine ⟨rfl, ?_⟩
  obtain ⟨⟨r, r', h1, h2, _, h3, h4⟩, _⟩ := C19_selector_in_pack Device.digits [.text "a"]
    [.int 255] .DEC (Manager.init .LVL_INFO .LVL_ERROR) rfl
  refine ⟨r, r', h1, h2, ?_, ?_⟩
  · rw [show Serial = (Manager.init .LVL_INFO .LVL_ERROR).primary_stream from rfl, h3]
    decide
  · rw [show Serial = (Manager.init .LVL_INFO .LVL_ERROR).primary_stream from rfl, h4]
    decide

theorem same_config_reset_after_list (args : List Arg) (m : Manager) :
    m.same_config (after_list args m).reset_base := by
  simp [Manager.same_config]

theorem same_config_after_line (args : List Arg) (m : Manager) :
    m.same_config (after_line args m) := by
  simp [Manager.same_config]

/-- Claim C20: with a file stream attached, every `log`, `print`, `println`, `print_file`
and `println_file` call, for every argument list (nested sequences and mappings
included), returns and leaves the primary threshold, the file threshold, the delimiter,
`b_base_reset`, the two stream pointers and `b_auto_save` as they were: the manager
afterwards is the one before with, at most, another base and precision. -/
theorem C20_frame (colors : Bool) (L : LogLevel) (args : List Arg) (m : Manager) (f : Stream)
    (hf : m.file_stream = some f) :
    (∃ r, log colors L args m = some r ∧ m.same_config r.1 ∧
      r.1 = m.set_fmt r.1.log_base r.1.log_precision) ∧
    (∃ r, print args m = some r ∧ m.same_config r.1 ∧
      r.1 = m.set_fmt r.1.log_base r.1.log_precision) ∧
    (∃ r, println args m = some r ∧ m.same_config r.1 ∧
      r.1 = m.set_fmt r.1.log_base r.1.log_precision) ∧
    (∃ r, print_file args m = some r ∧ m.same_config r.1 ∧
      r.1 = m.set_fmt r.1.log_base r.1.log_precision) ∧
    (∃ r, println_file args m = some r ∧ m.same_config r.1 ∧
      r.1 = m.set_fmt r.1.log_base r.1.log_precision) := by
  have key : ∀ m' : Manager, m.same_config m' →
      m' = m.set_fmt m'.log_base m'.log_precision := by
    intro m' h
    obtain ⟨h1, h2, h3, h4, h5, h6, h7⟩ := h
    cases m
    cases m'
    simp_all [Manager.set_fmt]
  have hpr := same_config_reset_after_list args m
  refine ⟨?_, ⟨_, print_eq args m, hpr, key _ hpr⟩, ⟨_, println_eq args m, hpr, key _ hpr⟩,
    ⟨_, print_file_eq args m f hf, hpr, key _ hpr⟩,
    ⟨_, println_file_eq args m f hf, hpr, key _ hpr⟩⟩
  have hlog : m.same_config
      (if (m.file_stream.isSome && admits L m.file_lvl) = true then
        after_line args (if admits L m.log_lvl = true then after_line args m else m)
      else if admits L m.log_lvl = true then after_line args m else m) := by
    by_cases h1 : admits L m.log_lvl = true <;>
    by_cases h2 : (m.file_stream.isSome && admits L m.file_lvl) = true <;>
    simp [h1, h2, Manager.same_config]
  exact ⟨_, log_eq colors L args m, hlog, key _ hlog⟩

/-- An instance of C20: `println_file` of a mapping of sequences on a manager with a file
stream. -/
theorem C20_frame_witness :
    (attach_file_stream ⟨1⟩ true (Manager.init .LVL_INFO .LVL_ERROR)).file_stream =
        some ⟨1⟩ ∧
      ∃ r, println_file [.base .HEX, .map [(.text "a", .arr [.int 1, .prec ⟨4⟩])]]
          (attach_file_stream ⟨1⟩ true (Manager.init .LVL_INFO .LVL_ERROR)) = some r ∧
        (attach_file_stream ⟨1⟩ true (Manager.init .LVL_INFO .LVL_ERROR)).same_config r.1 := by
  refine ⟨rfl, ?_⟩
  obtain ⟨_, _, _, _, r, hr, hc, _⟩ := C20_frame false .LVL_INFO
    [.base .HEX, .map [(.text "a", .arr [.int 1, .prec ⟨4⟩])]]
    (attach_file_stream ⟨1⟩ true (Manager.init .LVL_INFO .LVL_ERROR)) ⟨1⟩ rfl
  exact ⟨r, hr, hc⟩

end DebugLog
